import Mathlib

/-!
# Verification of the pdf-to-png-converter orchestration layer

A shallow embedding, in Lean 4, of the page-selection, naming, persistence and
resource-lifecycle logic of the `pdf-to-png-converter` repository, together
with theorems settling the specification claims about it.

Modelling conventions:
* JavaScript strings are Lean `String`s; the POSIX path functions
  (`posix.normalize`, `posix.resolve`, `join`) are modelled on `List Char`
  following Node.js's segment-processing semantics.
* JavaScript `number` values used as dimensions, scales and 1-based page
  numbers (which callers may supply as negative or zero) are modelled as `ℤ`
  (every claim involves only sign tests, products and equalities of these
  values, so nothing is lost by not modelling fractional values).
* A possibly-`undefined` value is an `Option`; `x !== undefined ? x : d`
  becomes a `match`, and `x ?? d` becomes `Option.getD`.
* The external pdf.js engine is an oracle: a `PdfDocument` record supplying
  the page count, per-page viewport dimensions, and which page renders fail.
* Asynchronous effects are sequentialized; resource usage is recorded as an
  explicit event trace (`ResourceEvent`), so that cleanup balance and
  simultaneous-surface bounds are statable.
* `process.cwd()` is ambient state in Node; it is threaded as an explicit
  `cwd` parameter.
-/

deriving instance DecidableEq for Except

namespace PdfToPngConverter

/-- Encoded PNG bytes of one rendered page (`canvas.toBuffer('image/png')`):
modelled abstractly by the page number and the viewport it was rendered at. -/
structure PageImage where
  page : Int
  width : ℤ
  height : ℤ
deriving DecidableEq, Repr

/-- Structure `PngPageOutput` from `src/types/png.page.output.ts` / `src/pdfToPng.ts`. -/
structure PngPageOutput where
  pageNumber : Int
  name : String
  content : Option PageImage
  path : String
  width : ℤ
  height : ℤ
deriving DecidableEq, Repr

/-- Structure `PdfToPngOptions`: union of the option fields declared across the
repository's option-type snapshots (`src/types/pdf.to.png.options.ts` and the
unnamed variants). Every field is optional, as in the TypeScript type.
`concurrencyLimit` is declared nowhere in the options type but is exercised by
`__tests__/pdf.to.png.parallel.no.content.test.ts` and described by the spec;
it is included here so the concurrency policy can be stated. -/
structure PdfToPngOptions where
  viewportScale : Option ℤ := none
  disableFontFace : Option Bool := none
  useSystemFonts : Option Bool := none
  enableXfa : Option Bool := none
  pdfFilePassword : Option String := none
  outputFolder : Option String := none
  outputFileMask : Option String := none
  outputFileMaskFunc : Option (Int → String) := none
  pagesToProcess : Option (List Int) := none
  strictPagesToProcess : Option Bool := none
  verbosityLevel : Option Nat := none
  returnPageContent : Option Bool := none
  processPagesInParallel : Option Bool := none
  concurrencyLimit : Option Nat := none

/-- Constant `PDF_TO_PNG_OPTIONS_DEFAULTS` from `src/const.ts`.  Note: the record in
`src/const.ts` defines no `enableXfa` member, so
`PDF_TO_PNG_OPTIONS_DEFAULTS.enableXfa` evaluates to `undefined` (`none`). -/
def PDF_TO_PNG_OPTIONS_DEFAULTS : PdfToPngOptions :=
  { viewportScale := some 1
    disableFontFace := some true
    useSystemFonts := some false
    outputFileMask := some "buffer"
    strictPagesToProcess := some false
    pdfFilePassword := none }

/-- Enumeration `VerbosityLevel` of pdf.js, re-exported by `src/types/verbosity.level.ts`
(whose source text is not present; the README documents
`// Verbosity level. ERRORS: 0, WARNINGS: 1, INFOS: 5`). -/
def VerbosityLevel.ERRORS : Nat := 0

/-- Structure `DocumentInitParameters`: the fields assigned by `propsToPdfDocInitParams`
in `src/props.to.pdf.doc.init.params.ts`. -/
structure DocumentInitParameters where
  cMapUrl : String
  cMapPacked : Bool
  standardFontDataUrl : String
  verbosity : Option Nat
  disableFontFace : Option Bool
  useSystemFonts : Option Bool
  enableXfa : Option Bool
  password : Option String
deriving DecidableEq, Repr

/-- Function `propsToPdfDocInitParams` from `src/props.to.pdf.doc.init.params.ts`.
Every branch mirrors a `props?.x !== undefined ? props.x : DEFAULT` ternary. -/
def propsToPdfDocInitParams (props : Option PdfToPngOptions) : DocumentInitParameters :=
  { cMapUrl := "../node_modules/pdfjs-dist/cmaps/"
    cMapPacked := true
    standardFontDataUrl := "../node_modules/pdfjs-dist/standard_fonts/"
    verbosity :=
      some (match props.bind (·.verbosityLevel) with
            | some v => v
            | none => VerbosityLevel.ERRORS)
    disableFontFace :=
      match props.bind (·.disableFontFace) with
      | some b => some b
      | none => PDF_TO_PNG_OPTIONS_DEFAULTS.disableFontFace
    useSystemFonts :=
      match props.bind (·.useSystemFonts) with
      | some b => some b
      | none => PDF_TO_PNG_OPTIONS_DEFAULTS.useSystemFonts
    enableXfa :=
      match props.bind (·.enableXfa) with
      | some b => some b
      | none => PDF_TO_PNG_OPTIONS_DEFAULTS.enableXfa
    password :=
      match props.bind (·.pdfFilePassword) with
      | some s => some s
      | none => PDF_TO_PNG_OPTIONS_DEFAULTS.pdfFilePassword }

/-- The in-memory pixel buffer allocated by the canvas provider
(`Canvas.createCanvas(width, height)`). -/
structure Canvas where
  width : ℤ
  height : ℤ
deriving DecidableEq, Repr

/-- The 2D paint context (`canvas.getContext('2d')`), bound to its canvas. -/
structure CanvasRenderingContext2D where
  boundTo : Canvas
deriving DecidableEq, Repr

/-- Structure `CanvasContext` from `src/node.canvas.factory.ts`. -/
structure CanvasContext where
  canvas : Option Canvas
  context : Option CanvasRenderingContext2D
deriving DecidableEq, Repr

namespace NodeCanvasFactory

/-- Method `NodeCanvasFactory.create` from `src/node.canvas.factory.ts`:
`strict(width > 0 && height > 0, 'Invalid canvas size')` then allocates the
canvas and binds a 2D context.  A failed `node:assert` `strict` call is an
`Except.error` carrying the assertion message. -/
def create (width height : ℤ) : Except String CanvasContext :=
  if width > 0 ∧ height > 0 then
    let canvas : Canvas := { width := width, height := height }
    .ok { canvas := some canvas, context := some { boundTo := canvas } }
  else
    .error "Invalid canvas size"

end NodeCanvasFactory

end PdfToPngConverter

namespace PdfToPngConverter

/-- CLAIM C9: `NodeCanvasFactory.create(width, height)` fails with the
invalid-dimension error exactly when `width ≤ 0` or `height ≤ 0`; otherwise it
returns a surface of exactly the requested dimensions together with a 2D paint
context bound to that surface. -/
theorem C9_canvas_create_dimensions (width height : ℤ) :
    (width ≤ 0 ∨ height ≤ 0 →
      NodeCanvasFactory.create width height = .error "Invalid canvas size") ∧
    (0 < width → 0 < height →
      NodeCanvasFactory.create width height =
        .ok { canvas := some { width := width, height := height }
              context := some { boundTo := { width := width, height := height } } }) := by
  constructor
  · intro h
    have hneg : ¬ (width > 0 ∧ height > 0) := by
      rcases h with h | h
      · exact fun hc => absurd hc.1 (not_lt.mpr h)
      · exact fun hc => absurd hc.2 (not_lt.mpr h)
    simp [NodeCanvasFactory.create, hneg]
  · intro hw hh
    simp [NodeCanvasFactory.create, hw, hh]

/-- Witness for C9 at concrete dimensions: width `-1` fails, `2 × 3` succeeds
with a canvas of exactly those dimensions. -/
theorem C9_canvas_create_dimensions_witness :
    NodeCanvasFactory.create (-1) 3 = .error "Invalid canvas size" ∧
    NodeCanvasFactory.create 2 3 =
      .ok { canvas := some { width := 2, height := 3 }
            context := some { boundTo := { width := 2, height := 3 } } } :=
  ⟨(C9_canvas_create_dimensions (-1) 3).1 (Or.inl (by norm_num)),
   (C9_canvas_create_dimensions 2 3).2 (by norm_num) (by norm_num)⟩

/-- CLAIM C7 (counterexample): the claim states that an undefined `enableXfa`
receives the default `false`; but `PDF_TO_PNG_OPTIONS_DEFAULTS` in
`src/const.ts` has no `enableXfa` member, so an options object without
`enableXfa` yields `enableXfa = undefined` in the engine init params, not
`false`. -/
theorem C7_enableXfa_default_not_false :
    (propsToPdfDocInitParams none).enableXfa ≠ some false ∧
    (propsToPdfDocInitParams none).enableXfa = none := by
  constructor <;> simp [propsToPdfDocInitParams, PDF_TO_PNG_OPTIONS_DEFAULTS]

/-- CLAIM C7 (amended): `propsToPdfDocInitParams` uses undefined-coalescing
for every recognized option: an explicitly supplied value — including `false`
or `0` — is always passed through to the engine init params; only an undefined
option receives its default (`disableFontFace = true`, `useSystemFonts =
false`, `verbosity = ERRORS`, `password = undefined`), while an undefined
`enableXfa` is passed through as undefined (the defaults record defines no
`enableXfa`), not replaced by `false`. -/
theorem C7_init_params_undefined_coalescing (p : PdfToPngOptions) :
    ((propsToPdfDocInitParams (some p)).disableFontFace =
      some (p.disableFontFace.getD true)) ∧
    ((propsToPdfDocInitParams (some p)).useSystemFonts =
      some (p.useSystemFonts.getD false)) ∧
    ((propsToPdfDocInitParams (some p)).enableXfa = p.enableXfa) ∧
    ((propsToPdfDocInitParams (some p)).verbosity =
      some (p.verbosityLevel.getD VerbosityLevel.ERRORS)) ∧
    ((propsToPdfDocInitParams (some p)).password = p.pdfFilePassword) := by
  refine ⟨?_, ?_, ?_, ?_, ?_⟩ <;>
    · simp only [propsToPdfDocInitParams, Option.bind_some, PDF_TO_PNG_OPTIONS_DEFAULTS]
      cases hx : p.disableFontFace <;> cases hy : p.useSystemFonts <;>
        cases hz : p.enableXfa <;> cases hv : p.verbosityLevel <;>
        cases hw : p.pdfFilePassword <;> simp [hx, hy, hz, hv, hw]

end PdfToPngConverter

namespace PdfToPngConverter

/-! ## POSIX path model (`node:path`, posix flavor)

Node's `posix.normalize` / `posix.resolve` / `join` process a path as a list
of `'/'`-separated segments, eliding empty and `'.'` segments and resolving
`'..'` segments.  Paths are modelled as `List Char`. -/

/-- Split a character list on `'/'` (the segment decomposition that Node's
`normalizeString` iterates over).  Always returns at least one (possibly
empty) segment, like `String.prototype.split('/')`. -/
def splitSlash : List Char → List (List Char)
  | [] => [[]]
  | c :: rest =>
    match splitSlash rest with
    | [] => if c = '/' then [[], []] else [[c]]
    | hd :: tl => if c = '/' then [] :: hd :: tl else (c :: hd) :: tl

/-- Join segments with `'/'` separators (inverse of `splitSlash` on
well-formed segment lists). -/
def joinSegs : List (List Char) → List Char
  | [] => []
  | [s] => s
  | s :: rest => s ++ '/' :: joinSegs rest

/-- One step of Node's `normalizeString` segment processing: skip empty and
`'.'` segments; on `'..'` pop the previous segment, or (only when
`allowAboveRoot` — i.e. for relative paths) emit a leading `'..'`. -/
def normStep (allowAboveRoot : Bool) (acc : List (List Char)) (s : List Char) :
    List (List Char) :=
  if s = [] ∨ s = ['.'] then acc
  else if s = ['.', '.'] then
    match acc.getLast? with
    | some t => if t = ['.', '.'] then (if allowAboveRoot then acc ++ [s] else acc)
                else acc.dropLast
    | none => if allowAboveRoot then [s] else []
  else acc ++ [s]

/-- Node's `normalizeString`: fold `normStep` over the segments. -/
def normSegs (allowAboveRoot : Bool) (segs : List (List Char)) : List (List Char) :=
  segs.foldl (normStep allowAboveRoot) []

/-- A path is absolute iff it starts with `'/'`
(`path.charCodeAt(0) === CHAR_FORWARD_SLASH` in Node). -/
def isAbsolutePath : List Char → Bool
  | [] => false
  | c :: _ => c = '/'

/-- Model of `posix.normalize` from `node:path`: empty path normalizes to `'.'`;
otherwise the segments are normalized (keeping leading `'..'`s only for
relative paths) and the leading `'/'` and any trailing separator are
preserved. -/
def posixNormalizeChars (p : List Char) : List Char :=
  if p = [] then ['.']
  else
    let abs := isAbsolutePath p
    let trail := p.getLast? = some '/'
    let body := joinSegs (normSegs (!abs) (splitSlash p))
    if body = [] then
      if abs then ['/'] else if trail then ['.', '/'] else ['.']
    else
      (if abs then '/' :: body else body) ++ (if trail then ['/'] else [])

/-- The path that `posix.resolve(from, to)` normalizes: Node scans its
arguments right-to-left until an absolute path is found, prepending
`process.cwd()` (ambient state, here the explicit `cwd` parameter) if none
is. -/
def resolveJoined (cwd pfrom pto : List Char) : List Char :=
  if isAbsolutePath pto then pto
  else if isAbsolutePath pfrom then pfrom ++ '/' :: pto
  else cwd ++ '/' :: pfrom ++ '/' :: pto

/-- Model of `posix.resolve(from, to)` from `node:path`: the combined path is
segment-normalized, with `'..'` never rising above root for an absolute
result. -/
def posixResolveChars (cwd pfrom pto : List Char) : List Char :=
  let joined := resolveJoined cwd pfrom pto
  let abs := isAbsolutePath joined
  let body := joinSegs (normSegs (!abs) (splitSlash joined))
  if abs then (if body = [] then ['/'] else '/' :: body)
  else (if body = [] then ['.'] else body)

/-- Model of `targetPath.replace(/\\/g, posix.sep)` from `sanitizePath`. -/
def replaceBackslashes (p : List Char) : List Char :=
  p.map (fun c => if c = '\\' then '/' else c)

/-- Model of `String.prototype.startsWith`: `s.startsWith(pre)`. -/
def jsStartsWith (s pre : List Char) : Bool :=
  pre.isPrefixOf s

/-- Function `sanitizePath(basePath, targetPath)` from `src/pdfToPng.ts` (the variant
at lines 369–378): normalize both paths (converting backslashes in the target
to `'/'`), resolve the target against the base, and throw
`'Invalid path: Path traversal detected.'` unless the resolved path starts
with `normalizedBasePath + '/'` or equals the normalized base.  `cwd` is the
ambient `process.cwd()` consulted by `posix.resolve` when both paths are
relative. -/
def sanitizePath (cwd basePath targetPath : List Char) : Except String (List Char) :=
  let normalizedBasePath := posixNormalizeChars basePath
  let normalizedTargetPath := posixNormalizeChars (replaceBackslashes targetPath)
  let resolvedPath := posixResolveChars cwd normalizedBasePath normalizedTargetPath
  if ¬ jsStartsWith resolvedPath (normalizedBasePath ++ ['/']) ∧
      resolvedPath ≠ normalizedBasePath then
    .error "Invalid path: Path traversal detected."
  else
    .ok resolvedPath

/-- Model of `join(a, b)` from `node:path` (posix): concatenate with a `'/'` separator
and normalize. -/
def joinPath (a b : String) : String :=
  ⟨posixNormalizeChars (a.data ++ '/' :: b.data)⟩

/-- Model of `resolve(a, b)` from `node:path` (posix) on `String`s, with ambient
`process.cwd()`. -/
def resolvePath (cwd : String) (a b : String) : String :=
  ⟨posixResolveChars cwd.data a.data b.data⟩

/-- Model of `path.parse(p).name` from `node:path`: the base name of `p` (the part
after the last `'/'`, ignoring trailing slashes) with its extension (from the
last `'.'`, unless that dot is the base name's first character or the base
name is `'.'`/`'..'`) removed. -/
def nodeParseName (p : String) : String :=
  let noTrail := (p.data.reverse.dropWhile (· = '/')).reverse
  let base := ((splitSlash noTrail).getLast?).getD []
  if base = ['.'] ∨ base = ['.', '.'] then ⟨base⟩
  else
    match base.reverse.findIdx? (· = '.') with
    | none => ⟨base⟩
    | some ridx =>
      let i := base.length - 1 - ridx
      if i = 0 then ⟨base⟩ else ⟨base.take i⟩

end PdfToPngConverter

namespace PdfToPngConverter

/-! ## The rendering engine oracle and the conversion pipelines -/

/-- The open pdf.js document handle (`PDFDocumentProxy`), abstracted as an
oracle: the page count, each page's intrinsic viewport size (at scale 1, so
`getViewport({scale})` yields `size * scale`), and which pages' render
operations reject. -/
structure PdfDocument where
  numPages : Nat
  pageWidth : Int → ℤ
  pageHeight : Int → ℤ
  renderFails : Int → Bool

/-- The caller's input: a filesystem path (a JS string) or an in-memory
buffer (already normalized by `getPdfFileBuffer`). -/
inductive PdfInput where
  | filePath (path : String)
  | buffer

/-- Discrimination `typeof pdfFile === 'string'` / `Buffer.isBuffer` discrimination. -/
def PdfInput.isString : PdfInput → Bool
  | .filePath _ => true
  | .buffer => false

/-- Observable resource effects of a conversion call, recorded as a trace. -/
inductive ResourceEvent where
  | surfaceCreate (page : Int)
  | surfaceDestroy (page : Int)
  | pageCleanup (page : Int)
  | docCleanup
  | fileWrite (path : String)
deriving DecidableEq, Repr

/-- Model of `props?.pagesToProcess ?? Array.from({length: numPages}, (_, i) => i+1)`
(`src/pdfToPng.ts` line 59). -/
def requestedPages (doc : PdfDocument) (props : Option PdfToPngOptions) : List Int :=
  (props.bind (·.pagesToProcess)).getD
    ((List.range doc.numPages).map (fun (i : Nat) => (i : Int) + 1))

/-- Model of `pagesToProcess.filter((p) => p <= pdfDocument.numPages && p >= 1)`
(`src/pdfToPng.ts` line 60). -/
def validPagesToProcess (doc : PdfDocument) (props : Option PdfToPngOptions) : List Int :=
  (requestedPages doc props).filter
    (fun pageNumber => decide (pageNumber ≤ (doc.numPages : Int) ∧ 1 ≤ pageNumber))

/-- Model of `props?.viewportScale !== undefined ? props.viewportScale :
PDF_TO_PNG_OPTIONS_DEFAULTS.viewportScale`. -/
def pageViewportScaleOf (props : Option PdfToPngOptions) : ℤ :=
  match props.bind (·.viewportScale) with
  | some s => s
  | none => (PDF_TO_PNG_OPTIONS_DEFAULTS.viewportScale).getD 1

/-- The default page-name mask: the input file's base name without extension
when the input is a path, else `PDF_TO_PNG_OPTIONS_DEFAULTS.outputFileMask`
(`'buffer'`). -/
def defaultMaskOf (pdfFile : PdfInput) : String :=
  match pdfFile with
  | .filePath s => nodeParseName s
  | .buffer => (PDF_TO_PNG_OPTIONS_DEFAULTS.outputFileMask).getD ""

/-- Model of `props?.outputFileMaskFunc?.(pageNumber) ??
`${defaultMask}_page_${pageNumber}.png`` (`src/pdfToPng.ts` line 73). -/
def pageNameOf (props : Option PdfToPngOptions) (defaultMask : String)
    (pageNumber : Int) : String :=
  match props.bind (·.outputFileMaskFunc) with
  | some f => f pageNumber
  | none => defaultMask ++ "_page_" ++ toString pageNumber ++ ".png"

/-- Function `processPdfPage` from `src/pdfToPng.ts` (lines 204–232): get the page,
compute the viewport at the requested scale, create a canvas, render, and —
in a `finally` block — run `page.cleanup()` and `canvasFactory.destroy`
whether or not the render succeeded.  `content` is produced only when
`returnPageContent` is true. -/
def processPdfPage (doc : PdfDocument) (pageName : String) (pageNumber : Int)
    (pageViewportScale : ℤ) (returnPageContent : Bool) :
    Except String PngPageOutput × List ResourceEvent :=
  let w := doc.pageWidth pageNumber * pageViewportScale
  let h := doc.pageHeight pageNumber * pageViewportScale
  match NodeCanvasFactory.create w h with
  | .error e => (.error e, [])
  | .ok _ =>
    let tr := [ResourceEvent.surfaceCreate pageNumber,
               ResourceEvent.pageCleanup pageNumber,
               ResourceEvent.surfaceDestroy pageNumber]
    if doc.renderFails pageNumber then (.error "render failed", tr)
    else
      (.ok { pageNumber := pageNumber
             name := pageName
             content := if returnPageContent then some ⟨pageNumber, w, h⟩ else none
             path := ""
             width := w
             height := h }, tr)

/-- The `PngPageOutput` that `processPdfPage` yields for a page whose render
succeeds. -/
def renderedPageOutput (doc : PdfDocument) (pdfFile : PdfInput)
    (props : Option PdfToPngOptions) (pageNumber : Int) : PngPageOutput :=
  { pageNumber := pageNumber
    name := pageNameOf props (defaultMaskOf pdfFile) pageNumber
    content :=
      if (props.bind (·.returnPageContent)).getD true then
        some ⟨pageNumber, doc.pageWidth pageNumber * pageViewportScaleOf props,
              doc.pageHeight pageNumber * pageViewportScaleOf props⟩
      else none
    path := ""
    width := doc.pageWidth pageNumber * pageViewportScaleOf props
    height := doc.pageHeight pageNumber * pageViewportScaleOf props }

/-- Model of `Promise.all`: succeeds with all values iff every promise resolved,
otherwise rejects with the first rejection. -/
def promiseAll {E A : Type} : List (Except E A) → Except E (List A)
  | [] => .ok []
  | .error e :: _ => .error e
  | .ok a :: rest => (promiseAll rest).map (a :: ·)

/-- Function `pdfToPng` from `src/pdfToPng.ts` (first variant, lines 53–99): select and
filter pages, render them all via `Promise.all`, clean up the document in a
`finally`, then — when `outputFolder` is set — join
`join(process.cwd(), outputFolder)` with each page name, rejecting with
`'Cannot write PNG file … because content is undefined.'` for an output whose
`content` is `undefined`, and writing the rest.  Returns the result together
with the resource-event trace. -/
def pdfToPng (cwd : String) (doc : PdfDocument) (pdfFile : PdfInput)
    (props : Option PdfToPngOptions) :
    Except String (List PngPageOutput) × List ResourceEvent :=
  let validPages := validPagesToProcess doc props
  let scale := pageViewportScaleOf props
  let defaultMask := defaultMaskOf pdfFile
  let retContent := (props.bind (·.returnPageContent)).getD true
  let results := validPages.map (fun pageNumber =>
    processPdfPage doc (pageNameOf props defaultMask pageNumber) pageNumber scale retContent)
  let renderTrace := (results.map Prod.snd).flatten ++ [ResourceEvent.docCleanup]
  match promiseAll (results.map Prod.fst) with
  | .error e => (.error e, renderTrace)
  | .ok outs =>
    match props.bind (·.outputFolder) with
    | none => (.ok outs, renderTrace)
    | some folder =>
      let outputFolderPath := joinPath cwd folder
      let withPaths := outs.map (fun (o : PngPageOutput) => { o with path := joinPath outputFolderPath o.name })
      let writes := withPaths.filterMap
        (fun o => o.content.map (fun _ => ResourceEvent.fileWrite o.path))
      match withPaths.find? (fun o => o.content.isNone) with
      | some o =>
        (.error ("Cannot write PNG file \"" ++ o.path ++ "\" because content is undefined."),
         renderTrace ++ writes)
      | none => (.ok withPaths, renderTrace ++ writes)

/-- Function `processPdfPage` from `src/pdfToPng.ts` (third variant, lines 525–547):
as `processPdfPage`, but `content` is always produced
(`canvas.toBuffer('image/png')` unconditionally). -/
def processPdfPageAlwaysContent (doc : PdfDocument) (pageName : String)
    (pageNumber : Int) (pageViewportScale : ℤ) :
    Except String PngPageOutput × List ResourceEvent :=
  let w := doc.pageWidth pageNumber * pageViewportScale
  let h := doc.pageHeight pageNumber * pageViewportScale
  match NodeCanvasFactory.create w h with
  | .error e => (.error e, [])
  | .ok _ =>
    let tr := [ResourceEvent.surfaceCreate pageNumber,
               ResourceEvent.pageCleanup pageNumber,
               ResourceEvent.surfaceDestroy pageNumber]
    if doc.renderFails pageNumber then (.error "render failed", tr)
    else
      (.ok { pageNumber := pageNumber
             name := pageName
             content := some ⟨pageNumber, w, h⟩
             path := ""
             width := w
             height := h }, tr)

/-- Function `pdfToPng` from `src/pdfToPng.ts` (third variant, lines 431–491): renders
with content unconditionally, writes every output when `outputFolder` is set,
and only afterwards — when `props?.returnPageContent === false` — deletes
`content` from the returned objects. -/
def pdfToPngClearAfterSave (cwd : String) (doc : PdfDocument) (pdfFile : PdfInput)
    (props : Option PdfToPngOptions) :
    Except String (List PngPageOutput) × List ResourceEvent :=
  let validPages := validPagesToProcess doc props
  let scale := pageViewportScaleOf props
  let defaultMask := defaultMaskOf pdfFile
  let results := validPages.map (fun pageNumber =>
    processPdfPageAlwaysContent doc (pageNameOf props defaultMask pageNumber) pageNumber scale)
  let renderTrace := (results.map Prod.snd).flatten ++ [ResourceEvent.docCleanup]
  match promiseAll (results.map Prod.fst) with
  | .error e => (.error e, renderTrace)
  | .ok outs =>
    let saved :=
      match props.bind (·.outputFolder) with
      | none => (outs, ([] : List ResourceEvent))
      | some folder =>
        let outputFolderPath := joinPath cwd folder
        let withPaths := outs.map (fun (o : PngPageOutput) => { o with path := joinPath outputFolderPath o.name })
        (withPaths, withPaths.map (fun (o : PngPageOutput) => ResourceEvent.fileWrite o.path))
    let finalOuts :=
      if props.bind (·.returnPageContent) = some false then
        saved.1.map (fun (o : PngPageOutput) => { o with content := none })
      else saved.1
    (.ok finalOuts, renderTrace ++ saved.2)

/-- Function `processPdfPage` from `src/unnamed/part_004` (lines 175–194): identical
rendering steps, but `page.cleanup()` and `canvasFactory.destroy` run only
after a successful render — there is no `try`/`finally`, so a rejected render
skips them. -/
def processPdfPagePart004 (doc : PdfDocument) (pageName : String)
    (pageNumber : Int) (pageViewportScale : ℤ) :
    Except String PngPageOutput × List ResourceEvent :=
  let w := doc.pageWidth pageNumber * pageViewportScale
  let h := doc.pageHeight pageNumber * pageViewportScale
  match NodeCanvasFactory.create w h with
  | .error e => (.error e, [])
  | .ok _ =>
    if doc.renderFails pageNumber then
      (.error "render failed", [ResourceEvent.surfaceCreate pageNumber])
    else
      (.ok { pageNumber := pageNumber
             name := pageName
             content := some ⟨pageNumber, w, h⟩
             path := ""
             width := w
             height := h },
       [ResourceEvent.surfaceCreate pageNumber,
        ResourceEvent.pageCleanup pageNumber,
        ResourceEvent.surfaceDestroy pageNumber])

/-- Function `pdfToPng` from `src/unnamed/part_004` (lines 99–143): same orchestration
as the `src/pdfToPng.ts` variants (pages filtered, `Promise.all`, document
cleanup in a `finally`), but each page is processed by
`processPdfPagePart004`, and persistence resolves
`resolve(props.outputFolder, name)` and writes unconditionally. -/
def pdfToPngPart004 (cwd : String) (doc : PdfDocument) (pdfFile : PdfInput)
    (props : Option PdfToPngOptions) :
    Except String (List PngPageOutput) × List ResourceEvent :=
  let validPages := validPagesToProcess doc props
  let scale := pageViewportScaleOf props
  let defaultMask := defaultMaskOf pdfFile
  let results := validPages.map (fun pageNumber =>
    processPdfPagePart004 doc (pageNameOf props defaultMask pageNumber) pageNumber scale)
  let renderTrace := (results.map Prod.snd).flatten ++ [ResourceEvent.docCleanup]
  match promiseAll (results.map Prod.fst) with
  | .error e => (.error e, renderTrace)
  | .ok outs =>
    match props.bind (·.outputFolder) with
    | none => (.ok outs, renderTrace)
    | some folder =>
      let withPaths := outs.map (fun (o : PngPageOutput) => { o with path := resolvePath cwd folder o.name })
      (.ok withPaths, renderTrace ++ withPaths.map (fun o => ResourceEvent.fileWrite o.path))

end PdfToPngConverter

namespace PdfToPngConverter

/-- The `PngPageOutput` produced by the sequential loop of `src/pdf.to.png.ts`
(lines 63–100) for a valid page: content always present, `path` set inside the
loop via `resolve(props.outputFolder, name)` when `props?.outputFolder` is
truthy (a supplied empty string is falsy in JS and skips persistence). -/
def seqPageOutput (cwd : String) (doc : PdfDocument) (pdfFile : PdfInput)
    (props : Option PdfToPngOptions) (pageNumber : Int) : PngPageOutput :=
  let scale := pageViewportScaleOf props
  let w := doc.pageWidth pageNumber * scale
  let h := doc.pageHeight pageNumber * scale
  let name := pageNameOf props (defaultMaskOf pdfFile) pageNumber
  { pageNumber := pageNumber
    name := name
    content := some ⟨pageNumber, w, h⟩
    path :=
      match props.bind (·.outputFolder) with
      | some folder => if folder ≠ "" then resolvePath cwd folder name else ""
      | none => ""
    width := w
    height := h }

/-- The `for (const pageNumber of targetedPageNumbers)` loop of
`src/pdf.to.png.ts` (lines 63–100): out-of-bounds pages are skipped with
`continue`; each remaining page is rendered (a canvas-size assertion or a
render rejection aborts the whole call) and appended in order. -/
def seqLoop (cwd : String) (doc : PdfDocument) (pdfFile : PdfInput)
    (props : Option PdfToPngOptions) : List Int → Except String (List PngPageOutput)
  | [] => .ok []
  | pageNumber :: rest =>
    if (doc.numPages : Int) < pageNumber ∨ pageNumber < 1 then
      seqLoop cwd doc pdfFile props rest
    else
      match NodeCanvasFactory.create
          (doc.pageWidth pageNumber * pageViewportScaleOf props)
          (doc.pageHeight pageNumber * pageViewportScaleOf props) with
      | .error e => .error e
      | .ok _ =>
        if doc.renderFails pageNumber then .error "render failed"
        else
          (seqLoop cwd doc pdfFile props rest).map
            (seqPageOutput cwd doc pdfFile props pageNumber :: ·)

/-- Function `pdfToPng` from `src/pdf.to.png.ts` (first variant, lines 27–103): when
`props?.strictPagesToProcess` is truthy, requesting any page `< 1` (or any
page `> numPages`) throws before anything is rendered; otherwise the pages
are processed sequentially with out-of-bounds entries skipped. -/
def pdfToPngSequential (cwd : String) (doc : PdfDocument) (pdfFile : PdfInput)
    (props : Option PdfToPngOptions) : Except String (List PngPageOutput) :=
  let targetedPageNumbers := requestedPages doc props
  let strict := (props.bind (·.strictPagesToProcess)).getD false
  if strict && targetedPageNumbers.any (fun p => decide (p < 1)) then
    .error "Invalid pages requested, page number must be >= 1"
  else if strict && targetedPageNumbers.any (fun p => decide ((doc.numPages : Int) < p)) then
    .error "Invalid pages requested, page number must be <= total pages"
  else seqLoop cwd doc pdfFile props targetedPageNumbers

/-! ## Helper lemmas about the pipelines -/

/-- Lemma: `Promise.all` over per-page promises resolves with the per-page values
when every page's promise resolves. -/
theorem promiseAll_map_ok {E A B : Type} (f : B → Except E A) (g : B → A)
    (pages : List B) (h : ∀ b ∈ pages, f b = .ok (g b)) :
    promiseAll (pages.map f) = .ok (pages.map g) := by
  induction pages with
  | nil => rfl
  | cons p rest ih =>
    have hp := h p (List.mem_cons_self p rest)
    have hrest := ih (fun b hb => h b (List.mem_cons_of_mem p hb))
    simp [promiseAll, hp, hrest, Except.map]

/-- If `Promise.all` over per-page promises resolved, then any projection of
the resolved values agrees element-wise with a function of the page, provided
every individually resolved promise satisfies it. -/
theorem promiseAll_ok_proj {E A B β : Type} (f : B → Except E A) (g : A → β)
    (nm : B → β) (h : ∀ p a, f p = .ok a → g a = nm p) :
    ∀ (pages : List B) (outs : List A),
      promiseAll (pages.map f) = .ok outs → outs.map g = pages.map nm := by
  intro pages
  induction pages with
  | nil =>
    intro outs h0
    simp only [List.map_nil, promiseAll, Except.ok.injEq] at h0
    subst h0
    simp
  | cons p rest ih =>
    intro outs h0
    simp only [List.map_cons] at h0
    cases hfp : f p with
    | error e => rw [hfp] at h0; simp [promiseAll] at h0
    | ok a =>
      rw [hfp] at h0
      simp only [promiseAll] at h0
      cases hpa : promiseAll (rest.map f) with
      | error e => rw [hpa] at h0; simp [Except.map] at h0
      | ok outs' =>
        rw [hpa] at h0
        simp only [Except.map, Except.ok.injEq] at h0
        subst h0
        simp only [List.map_cons]
        rw [h p a hfp, ih outs' hpa]

/-- A page whose viewport is positive and whose render succeeds yields its
`PngPageOutput` together with the balanced create/cleanup/destroy trace. -/
theorem processPdfPage_ok (doc : PdfDocument) (pageName : String) (p : Int)
    (scale : ℤ) (retC : Bool)
    (hw : 0 < doc.pageWidth p * scale) (hh : 0 < doc.pageHeight p * scale)
    (hr : doc.renderFails p = false) :
    processPdfPage doc pageName p scale retC =
      (.ok { pageNumber := p
             name := pageName
             content := if retC then
                 some ⟨p, doc.pageWidth p * scale, doc.pageHeight p * scale⟩
               else none
             path := ""
             width := doc.pageWidth p * scale
             height := doc.pageHeight p * scale },
       [ResourceEvent.surfaceCreate p, ResourceEvent.pageCleanup p,
        ResourceEvent.surfaceDestroy p]) := by
  simp [processPdfPage, NodeCanvasFactory.create, hw, hh, hr]

/-- Same, for the variant that always produces content. -/
theorem processPdfPageAlwaysContent_ok (doc : PdfDocument) (pageName : String)
    (p : Int) (scale : ℤ)
    (hw : 0 < doc.pageWidth p * scale) (hh : 0 < doc.pageHeight p * scale)
    (hr : doc.renderFails p = false) :
    processPdfPageAlwaysContent doc pageName p scale =
      (.ok { pageNumber := p
             name := pageName
             content := some ⟨p, doc.pageWidth p * scale, doc.pageHeight p * scale⟩
             path := ""
             width := doc.pageWidth p * scale
             height := doc.pageHeight p * scale },
       [ResourceEvent.surfaceCreate p, ResourceEvent.pageCleanup p,
        ResourceEvent.surfaceDestroy p]) := by
  simp [processPdfPageAlwaysContent, NodeCanvasFactory.create, hw, hh, hr]

/-- A successfully processed page carries the page name it was given. -/
theorem processPdfPage_name (doc : PdfDocument) (nm : String) (p : Int)
    (scale : ℤ) (retC : Bool) (a : PngPageOutput)
    (h : (processPdfPage doc nm p scale retC).1 = .ok a) : a.name = nm := by
  simp only [processPdfPage] at h
  rcases hc : NodeCanvasFactory.create (doc.pageWidth p * scale) (doc.pageHeight p * scale)
    with e | cc
  · rw [hc] at h; simp at h
  · rw [hc] at h
    by_cases hr : doc.renderFails p
    · simp [hr] at h
    · simp only [hr, Bool.false_eq_true, if_false, Except.ok.injEq] at h
      subst h
      rfl

/-- The default page selection `1..numPages` survives the range filter. -/
theorem filter_range_pages (n : Nat) :
    ((List.range n).map (fun (i : Nat) => (i : Int) + 1)).filter
      (fun p => decide (p ≤ (n : Int) ∧ 1 ≤ p)) =
    (List.range n).map (fun (i : Nat) => (i : Int) + 1) := by
  apply List.filter_eq_self.mpr
  intro a ha
  rw [List.mem_map] at ha
  obtain ⟨i, hmem, rfl⟩ := ha
  rw [List.mem_range] at hmem
  rw [decide_eq_true_eq]
  omega

end PdfToPngConverter

namespace PdfToPngConverter

/-- Mapping `renderedPageOutput` and then projecting `pageNumber` is the
identity on the page list. -/
theorem renderedPageOutput_pageNumbers (doc : PdfDocument) (pdfFile : PdfInput)
    (props : Option PdfToPngOptions) (pages : List Int) :
    (pages.map (renderedPageOutput doc pdfFile props)).map (·.pageNumber) = pages := by
  rw [List.map_map]
  have h : ((fun (o : PngPageOutput) => o.pageNumber) ∘ renderedPageOutput doc pdfFile props)
      = fun p => p := by
    funext p; rfl
  rw [h, List.map_id']

/-- As `renderedPageOutput_pageNumbers`, after the persistence step's path
update. -/
theorem rendered_pathUpdate_pageNumbers (doc : PdfDocument) (pdfFile : PdfInput)
    (props : Option PdfToPngOptions) (base : String) (pages : List Int) :
    ((pages.map (renderedPageOutput doc pdfFile props)).map
      (fun (o : PngPageOutput) => { o with path := joinPath base o.name })).map
      (·.pageNumber) = pages := by
  rw [List.map_map, List.map_map]
  have h : (((fun (o : PngPageOutput) => o.pageNumber) ∘
      (fun (o : PngPageOutput) => { o with path := joinPath base o.name })) ∘
        renderedPageOutput doc pdfFile props) = fun p => p := by
    funext p; rfl
  rw [h, List.map_id']

/-- CLAIM C1: a call whose per-page renders succeed returns exactly the
requested pages lying in `[1, numPages]`, in the requested order, with no
error raised for out-of-range entries; when `pagesToProcess` is omitted, the
returned pages are `1..numPages` ascending.  (The render/persistence side
hypotheses exclude the orthogonal failure modes: a rejecting render, a
non-positive viewport, or this variant's missing-content write error.) -/
theorem C1_page_filtering (cwd : String) (doc : PdfDocument) (pdfFile : PdfInput)
    (props : Option PdfToPngOptions)
    (hrender : ∀ p ∈ validPagesToProcess doc props, doc.renderFails p = false)
    (hdims : ∀ p ∈ validPagesToProcess doc props,
      0 < doc.pageWidth p * pageViewportScaleOf props ∧
      0 < doc.pageHeight p * pageViewportScaleOf props)
    (hpersist : props.bind (·.outputFolder) = none ∨
      (props.bind (·.returnPageContent)).getD true = true) :
    ∃ outs, (pdfToPng cwd doc pdfFile props).fst = .ok outs ∧
      outs.map (·.pageNumber) =
        (requestedPages doc props).filter
          (fun p => decide (p ≤ (doc.numPages : Int) ∧ 1 ≤ p)) ∧
      (props.bind (·.pagesToProcess) = none →
        outs.map (·.pageNumber) =
          (List.range doc.numPages).map (fun (i : Nat) => (i : Int) + 1)) := by
  have hall : ∀ p ∈ validPagesToProcess doc props,
      (processPdfPage doc (pageNameOf props (defaultMaskOf pdfFile) p) p
        (pageViewportScaleOf props) ((props.bind (·.returnPageContent)).getD true)).1
      = .ok (renderedPageOutput doc pdfFile props p) := by
    intro p hp
    rw [processPdfPage_ok doc _ p _ _ (hdims p hp).1 (hdims p hp).2 (hrender p hp)]
    rfl
  have hpromise : promiseAll (((validPagesToProcess doc props).map
      (fun pageNumber => processPdfPage doc (pageNameOf props (defaultMaskOf pdfFile) pageNumber)
        pageNumber (pageViewportScaleOf props)
        ((props.bind (·.returnPageContent)).getD true))).map Prod.fst)
      = .ok ((validPagesToProcess doc props).map (renderedPageOutput doc pdfFile props)) := by
    rw [List.map_map]
    exact promiseAll_map_ok _ _ _ (fun p hp => hall p hp)
  have hfilter : (requestedPages doc props).filter
      (fun p => decide (p ≤ (doc.numPages : Int) ∧ 1 ≤ p)) = validPagesToProcess doc props := rfl
  have hdefault : props.bind (·.pagesToProcess) = none →
      validPagesToProcess doc props =
        (List.range doc.numPages).map (fun (i : Nat) => (i : Int) + 1) := by
    intro hnone
    unfold validPagesToProcess requestedPages
    rw [hnone, Option.getD_none, filter_range_pages]
  simp only [pdfToPng]
  rw [hpromise]
  rcases hfold : props.bind (·.outputFolder) with _ | folder <;> dsimp only
  · exact ⟨(validPagesToProcess doc props).map (renderedPageOutput doc pdfFile props),
      rfl, by rw [renderedPageOutput_pageNumbers, hfilter],
      fun hnone => by rw [renderedPageOutput_pageNumbers, hdefault hnone]⟩
  · have hret : (props.bind (·.returnPageContent)).getD true = true := by
      rcases hpersist with h | h
      · rw [hfold] at h; cases h
      · exact h
    have hfind : (((validPagesToProcess doc props).map (renderedPageOutput doc pdfFile props)).map
        (fun (o : PngPageOutput) =>
          { o with path := joinPath (joinPath cwd folder) o.name })).find?
        (fun o => o.content.isNone) = none := by
      apply List.find?_eq_none.mpr
      intro o ho
      rw [List.mem_map] at ho
      obtain ⟨o', ho', rfl⟩ := ho
      rw [List.mem_map] at ho'
      obtain ⟨p, hp, rfl⟩ := ho'
      simp [renderedPageOutput, hret]
    refine ⟨((validPagesToProcess doc props).map (renderedPageOutput doc pdfFile props)).map
        (fun (o : PngPageOutput) => { o with path := joinPath (joinPath cwd folder) o.name }),
      ?_, ?_, ?_⟩
    · rw [hfind]
    · rw [rendered_pathUpdate_pageNumbers, hfilter]
    · intro hnone
      rw [rendered_pathUpdate_pageNumbers, hdefault hnone]

end PdfToPngConverter

namespace PdfToPngConverter

/-- A 3-page document whose renders all succeed, with 10×10 viewports. -/
def docThree : PdfDocument :=
  { numPages := 3
    pageWidth := fun _ => 10
    pageHeight := fun _ => 10
    renderFails := fun _ => false }

/-- Options requesting pages `[-1, 0, 2, 3, 99]` of a 3-page document. -/
def propsOutOfRange : PdfToPngOptions :=
  { pagesToProcess := some [-1, 0, 2, 3, 99] }

/-- Witness for C1: requesting `[-1, 0, 2, 3, 99]` from the 3-page document
succeeds and yields exactly pages `[2, 3]`, in order. -/
theorem C1_page_filtering_witness :
    ∃ outs, (pdfToPng "/base" docThree .buffer (some propsOutOfRange)).fst = .ok outs ∧
      outs.map (·.pageNumber) = [2, 3] := by
  obtain ⟨outs, h1, h2, -⟩ :=
    C1_page_filtering "/base" docThree .buffer (some propsOutOfRange)
      (by decide) (by decide) (Or.inl rfl)
  exact ⟨outs, h1, by rw [h2]; decide⟩

/-- CLAIM C8: for every successful call with no mask options, the output page
names are `{mask}_page_{pageNumber}.png` where the mask is the base name
(without extension) of the input file path for a path input, and the fixed
placeholder `'buffer'` for a buffer input. -/
theorem C8_default_page_names (cwd : String) (doc : PdfDocument) (pdfFile : PdfInput)
    (props : Option PdfToPngOptions) (outs : List PngPageOutput)
    (hmask : props.bind (·.outputFileMaskFunc) = none)
    (hok : (pdfToPng cwd doc pdfFile props).fst = .ok outs) :
    outs.map (·.name) =
      (validPagesToProcess doc props).map
        (fun p => defaultMaskOf pdfFile ++ "_page_" ++ toString p ++ ".png") ∧
    (∀ s, defaultMaskOf (.filePath s) = nodeParseName s) ∧
    defaultMaskOf .buffer = "buffer" := by
  refine ⟨?_, fun s => rfl, rfl⟩
  have hname : ∀ (p : Int) (a : PngPageOutput),
      (processPdfPage doc (pageNameOf props (defaultMaskOf pdfFile) p) p
        (pageViewportScaleOf props) ((props.bind (·.returnPageContent)).getD true)).1 = .ok a →
      a.name = defaultMaskOf pdfFile ++ "_page_" ++ toString p ++ ".png" := by
    intro p a ha
    rw [processPdfPage_name doc _ p _ _ a ha]
    unfold pageNameOf
    rw [hmask]
  have hproj := promiseAll_ok_proj
    (fun p => (processPdfPage doc (pageNameOf props (defaultMaskOf pdfFile) p) p
      (pageViewportScaleOf props) ((props.bind (·.returnPageContent)).getD true)).1)
    (fun (o : PngPageOutput) => o.name)
    (fun p => defaultMaskOf pdfFile ++ "_page_" ++ toString p ++ ".png")
    hname
  simp only [pdfToPng] at hok
  rcases hpa : promiseAll (((validPagesToProcess doc props).map
      (fun pageNumber => processPdfPage doc (pageNameOf props (defaultMaskOf pdfFile) pageNumber)
        pageNumber (pageViewportScaleOf props)
        ((props.bind (·.returnPageContent)).getD true))).map Prod.fst) with e | outs0
  · rw [hpa] at hok; simp at hok
  · rw [hpa] at hok
    have hpa' : promiseAll ((validPagesToProcess doc props).map
        (fun p => (processPdfPage doc (pageNameOf props (defaultMaskOf pdfFile) p) p
          (pageViewportScaleOf props) ((props.bind (·.returnPageContent)).getD true)).1)) =
        .ok outs0 := by
      rw [List.map_map] at hpa
      exact hpa
    have houts0 := hproj (validPagesToProcess doc props) outs0 hpa'
    rcases hfold : props.bind (·.outputFolder) with _ | folder
    · rw [hfold] at hok
      dsimp only at hok
      rw [Except.ok.injEq] at hok
      subst hok
      exact houts0
    · rw [hfold] at hok
      dsimp only at hok
      rcases hfind : (outs0.map (fun (o : PngPageOutput) =>
          { o with path := joinPath (joinPath cwd folder) o.name })).find?
          (fun o => o.content.isNone) with _ | o
      · rw [hfind] at hok
        dsimp only at hok
        rw [Except.ok.injEq] at hok
        subst hok
        rw [List.map_map]
        have hcomp : ((fun (o : PngPageOutput) => o.name) ∘ (fun (o : PngPageOutput) =>
            { o with path := joinPath (joinPath cwd folder) o.name })) =
            (fun (o : PngPageOutput) => o.name) := by
          funext o; rfl
        rw [hcomp, houts0]
      · rw [hfind] at hok
        dsimp only at hok
        cases hok

end PdfToPngConverter

namespace PdfToPngConverter

/-- A 1-page document with a 5×7 viewport. -/
def docOne : PdfDocument :=
  { numPages := 1
    pageWidth := fun _ => 5
    pageHeight := fun _ => 7
    renderFails := fun _ => false }

/-- Witness for C8: converting `foo/bar.pdf` (1 page) with no options yields
the single page name `bar_page_1.png`. -/
theorem C8_default_page_names_witness :
    ∃ outs, (pdfToPng "/base" docOne (.filePath "foo/bar.pdf") none).fst = .ok outs ∧
      outs.map (·.name) = ["bar_page_1.png"] := by
  have hok : (pdfToPng "/base" docOne (.filePath "foo/bar.pdf") none).fst =
      .ok [{ pageNumber := 1, name := "bar_page_1.png", content := some ⟨1, 5, 7⟩,
             path := "", width := 5, height := 7 }] := by decide
  have h := C8_default_page_names "/base" docOne (.filePath "foo/bar.pdf") none _ rfl hok
  exact ⟨_, hok, by rw [h.1]; decide⟩

/-- Number of `surfaceCreate` events in a trace. -/
def countSurfaceCreates (tr : List ResourceEvent) : Nat :=
  tr.countP (fun e => match e with | .surfaceCreate _ => true | _ => false)

/-- Number of `surfaceDestroy` events in a trace. -/
def countSurfaceDestroys (tr : List ResourceEvent) : Nat :=
  tr.countP (fun e => match e with | .surfaceDestroy _ => true | _ => false)

/-- Number of `docCleanup` events in a trace. -/
def countDocCleanups (tr : List ResourceEvent) : Nat :=
  tr.countP (fun e => match e with | .docCleanup => true | _ => false)

/-- A 3-page document whose page-2 render rejects. -/
def docPage2Fails : PdfDocument :=
  { numPages := 3
    pageWidth := fun _ => 10
    pageHeight := fun _ => 10
    renderFails := fun p => decide (p = 2) }

/-- CLAIM C3 (failing input): converting the 3-page document whose page-2
render rejects through the `src/unnamed/part_004` pipeline still cleans the
document up exactly once, but creates 3 drawing surfaces and destroys only 2
— the surface of the failing page is leaked, because `processPdfPage` there
has no `try`/`finally`.  The `src/pdfToPng.ts` pipeline on the very same
input destroys all 3. -/
theorem C3_part004_surface_leak :
    (pdfToPngPart004 "/base" docPage2Fails .buffer none).fst = .error "render failed" ∧
    countDocCleanups (pdfToPngPart004 "/base" docPage2Fails .buffer none).snd = 1 ∧
    countSurfaceCreates (pdfToPngPart004 "/base" docPage2Fails .buffer none).snd = 3 ∧
    countSurfaceDestroys (pdfToPngPart004 "/base" docPage2Fails .buffer none).snd = 2 ∧
    (pdfToPng "/base" docPage2Fails .buffer none).fst = .error "render failed" ∧
    countDocCleanups (pdfToPng "/base" docPage2Fails .buffer none).snd = 1 ∧
    countSurfaceCreates (pdfToPng "/base" docPage2Fails .buffer none).snd = 3 ∧
    countSurfaceDestroys (pdfToPng "/base" docPage2Fails .buffer none).snd = 3 := by
  decide

/-- A 2-page document with 8×12 viewports (the shape of `test-data/sample.pdf`
used by the repository's tests). -/
def sampleDoc : PdfDocument :=
  { numPages := 2
    pageWidth := fun _ => 8
    pageHeight := fun _ => 12
    renderFails := fun _ => false }

/-- The options of `__tests__/pdf.to.png.parallel.no.content.test.ts`'s
second block: an output folder together with `returnPageContent: false`. -/
def noContentProps : PdfToPngOptions :=
  { outputFolder := some "out", returnPageContent := some false }

/-- CLAIM C4 (counterexample): in the first `pdfToPng` variant of
`src/pdfToPng.ts`, a call with `outputFolder` set and
`returnPageContent = false` produces no content at render time and then
rejects at the write step — persistence *does* fail for missing content,
contradicting the claim that content is always produced, written, and only
then removed. -/
theorem C4_persistence_missing_content_counterexample :
    (pdfToPng "/base" sampleDoc (.filePath "test-data/sample.pdf")
        (some noContentProps)).fst =
      .error "Cannot write PNG file \"/base/out/sample_page_1.png\" because content is undefined." := by
  decide

end PdfToPngConverter

namespace PdfToPngConverter

/-- The `PngPageOutput` yielded by `processPdfPageAlwaysContent` for a page
whose render succeeds. -/
def renderedPageOutputAlwaysContent (doc : PdfDocument) (pdfFile : PdfInput)
    (props : Option PdfToPngOptions) (pageNumber : Int) : PngPageOutput :=
  { pageNumber := pageNumber
    name := pageNameOf props (defaultMaskOf pdfFile) pageNumber
    content := some ⟨pageNumber, doc.pageWidth pageNumber * pageViewportScaleOf props,
      doc.pageHeight pageNumber * pageViewportScaleOf props⟩
    path := ""
    width := doc.pageWidth pageNumber * pageViewportScaleOf props
    height := doc.pageHeight pageNumber * pageViewportScaleOf props }

/-- The file paths at which `fileWrite` events occur in a trace. -/
def writeEventPaths (tr : List ResourceEvent) : List String :=
  tr.filterMap (fun e => match e with | .fileWrite p => some p | _ => none)

theorem writeEventPaths_append (a b : List ResourceEvent) :
    writeEventPaths (a ++ b) = writeEventPaths a ++ writeEventPaths b := by
  simp [writeEventPaths]

theorem writeEventPaths_flatten_nil (L : List (List ResourceEvent))
    (h : ∀ l ∈ L, writeEventPaths l = []) : writeEventPaths L.flatten = [] := by
  induction L with
  | nil => rfl
  | cons a L ih =>
    rw [List.flatten_cons, writeEventPaths_append, h a (List.mem_cons_self a L),
      ih (fun l hl => h l (List.mem_cons_of_mem a hl))]
    rfl

theorem writeEventPaths_map_fileWrite (l : List PngPageOutput) :
    writeEventPaths (l.map (fun o => ResourceEvent.fileWrite o.path)) = l.map (·.path) := by
  induction l with
  | nil => rfl
  | cons o rest ih =>
    simp only [List.map_cons, writeEventPaths, List.filterMap_cons] at *
    rw [ih]

/-- Rendering a page emits no `fileWrite` event. -/
theorem processPdfPageAlwaysContent_no_writes (doc : PdfDocument) (nm : String)
    (p : Int) (scale : ℤ) :
    writeEventPaths (processPdfPageAlwaysContent doc nm p scale).2 = [] := by
  simp only [processPdfPageAlwaysContent]
  rcases hc : NodeCanvasFactory.create (doc.pageWidth p * scale) (doc.pageHeight p * scale)
    with e | cc
  · rfl
  · by_cases hr : doc.renderFails p <;> simp [hr, writeEventPaths]

/-- The modelled `posix.normalize` never returns the empty path. -/
theorem posixNormalizeChars_ne_nil (p : List Char) : posixNormalizeChars p ≠ [] := by
  unfold posixNormalizeChars
  split
  · simp
  · dsimp only
    split
    · split
      · simp
      · split <;> simp
    · rename_i hbody
      rw [Ne, List.append_eq_nil]
      rintro ⟨h1, -⟩
      revert h1
      split
      · simp
      · simp [hbody]

/-- The modelled `join` never returns the empty path. -/
theorem joinPath_ne_empty (a b : String) : joinPath a b ≠ "" := by
  unfold joinPath
  intro h
  exact posixNormalizeChars_ne_nil (a.data ++ '/' :: b.data) (congrArg String.data h)

end PdfToPngConverter

namespace PdfToPngConverter

theorem map_clearContent_path (l : List PngPageOutput) :
    (l.map (fun (o : PngPageOutput) => { o with content := none })).map (·.path) =
      l.map (·.path) := by
  rw [List.map_map]
  rfl

/-- CLAIM C4 (amended, proved on the clear-after-save `pdfToPng` variant at
`src/pdfToPng.ts` lines 431–491): a call whose renders succeed always returns
`ok` — persistence never fails for missing content because content is
produced unconditionally, written when `outputFolder` is set, and only then
cleared.  Each returned output has `content = none` iff
`returnPageContent = false` was supplied, and a non-empty `path` iff
`outputFolder` was supplied; when `outputFolder` is supplied the `fileWrite`
events occur at exactly the returned paths. -/
theorem C4_content_and_path_invariants (cwd : String) (doc : PdfDocument)
    (pdfFile : PdfInput) (props : Option PdfToPngOptions)
    (hrender : ∀ p ∈ validPagesToProcess doc props, doc.renderFails p = false)
    (hdims : ∀ p ∈ validPagesToProcess doc props,
      0 < doc.pageWidth p * pageViewportScaleOf props ∧
      0 < doc.pageHeight p * pageViewportScaleOf props) :
    ∃ outs, (pdfToPngClearAfterSave cwd doc pdfFile props).fst = .ok outs ∧
      (∀ o ∈ outs, (o.content = none ↔ props.bind (·.returnPageContent) = some false)) ∧
      (∀ o ∈ outs, (o.path ≠ "" ↔ (props.bind (·.outputFolder)).isSome = true)) ∧
      (∀ folder, props.bind (·.outputFolder) = some folder →
        writeEventPaths (pdfToPngClearAfterSave cwd doc pdfFile props).snd =
          outs.map (·.path)) ∧
      (props.bind (·.outputFolder) = none →
        writeEventPaths (pdfToPngClearAfterSave cwd doc pdfFile props).snd = []) := by
  have hall : ∀ p ∈ validPagesToProcess doc props,
      (processPdfPageAlwaysContent doc (pageNameOf props (defaultMaskOf pdfFile) p) p
        (pageViewportScaleOf props)).1
      = .ok (renderedPageOutputAlwaysContent doc pdfFile props p) := by
    intro p hp
    rw [processPdfPageAlwaysContent_ok doc _ p _ (hdims p hp).1 (hdims p hp).2 (hrender p hp)]
    rfl
  have hpromise : promiseAll (((validPagesToProcess doc props).map
      (fun pageNumber => processPdfPageAlwaysContent doc
        (pageNameOf props (defaultMaskOf pdfFile) pageNumber) pageNumber
        (pageViewportScaleOf props))).map Prod.fst)
      = .ok ((validPagesToProcess doc props).map
          (renderedPageOutputAlwaysContent doc pdfFile props)) := by
    rw [List.map_map]
    exact promiseAll_map_ok _ _ _ hall
  have hnowrites : writeEventPaths ((((validPagesToProcess doc props).map
      (fun pageNumber => processPdfPageAlwaysContent doc
        (pageNameOf props (defaultMaskOf pdfFile) pageNumber) pageNumber
        (pageViewportScaleOf props))).map Prod.snd).flatten ++
      [ResourceEvent.docCleanup]) = [] := by
    rw [writeEventPaths_append, writeEventPaths_flatten_nil]
    · rfl
    · intro l hl
      rw [List.map_map, List.mem_map] at hl
      obtain ⟨p, hp, rfl⟩ := hl
      exact processPdfPageAlwaysContent_no_writes doc _ p _
  simp only [pdfToPngClearAfterSave]
  rw [hpromise]
  rcases hfold : props.bind (·.outputFolder) with _ | folder <;> dsimp only <;>
    by_cases hret : props.bind (·.returnPageContent) = some false
  · rw [if_pos hret]
    refine ⟨_, rfl, ?_, ?_, ?_, ?_⟩
    · intro o ho
      rw [List.mem_map] at ho
      obtain ⟨o', -, rfl⟩ := ho
      simp [hret]
    · intro o ho
      rw [List.mem_map] at ho
      obtain ⟨o', ho', rfl⟩ := ho
      rw [List.mem_map] at ho'
      obtain ⟨p, -, rfl⟩ := ho'
      simp [renderedPageOutputAlwaysContent]
    · intro f hf
      cases hf
    · intro _
      rw [List.append_nil]
      exact hnowrites
  · rw [if_neg hret]
    refine ⟨_, rfl, ?_, ?_, ?_, ?_⟩
    · intro o ho
      rw [List.mem_map] at ho
      obtain ⟨p, -, rfl⟩ := ho
      simp [renderedPageOutputAlwaysContent, hret]
    · intro o ho
      rw [List.mem_map] at ho
      obtain ⟨p, -, rfl⟩ := ho
      simp [renderedPageOutputAlwaysContent]
    · intro f hf
      cases hf
    · intro _
      rw [List.append_nil]
      exact hnowrites
  · rw [if_pos hret]
    refine ⟨_, rfl, ?_, ?_, ?_, ?_⟩
    · intro o ho
      rw [List.mem_map] at ho
      obtain ⟨o', -, rfl⟩ := ho
      simp [hret]
    · intro o ho
      rw [List.mem_map] at ho
      obtain ⟨o', ho', rfl⟩ := ho
      rw [List.mem_map] at ho'
      obtain ⟨o'', ho'', rfl⟩ := ho'
      simp [joinPath_ne_empty]
    · intro f hf
      rw [Option.some.injEq] at hf
      subst hf
      rw [writeEventPaths_append, hnowrites, writeEventPaths_map_fileWrite,
        List.nil_append, map_clearContent_path]
    · intro hf
      cases hf
  · rw [if_neg hret]
    refine ⟨_, rfl, ?_, ?_, ?_, ?_⟩
    · intro o ho
      rw [List.mem_map] at ho
      obtain ⟨o', ho', rfl⟩ := ho
      rw [List.mem_map] at ho'
      obtain ⟨p, -, rfl⟩ := ho'
      simp [renderedPageOutputAlwaysContent, hret]
    · intro o ho
      rw [List.mem_map] at ho
      obtain ⟨o', ho', rfl⟩ := ho
      simp [joinPath_ne_empty]
    · intro f hf
      rw [Option.some.injEq] at hf
      subst hf
      rw [writeEventPaths_append, hnowrites, writeEventPaths_map_fileWrite,
        List.nil_append]
    · intro hf
      cases hf

/-- Witness for the amended C4: the failing input of the counterexample,
run through the clear-after-save variant, succeeds with `content` removed and
non-empty `path`s, with the writes at exactly the returned paths. -/
theorem C4_content_and_path_invariants_witness :
    ∃ outs, (pdfToPngClearAfterSave "/base" sampleDoc
        (.filePath "test-data/sample.pdf") (some noContentProps)).fst = .ok outs ∧
      (∀ o ∈ outs, o.content = none ∧ o.path ≠ "") := by
  obtain ⟨outs, h1, h2, h3, -, -⟩ :=
    C4_content_and_path_invariants "/base" sampleDoc
      (.filePath "test-data/sample.pdf") (some noContentProps) (by decide) (by decide)
  exact ⟨outs, h1, fun o ho => ⟨(h2 o ho).mpr rfl, (h3 o ho).mpr rfl⟩⟩

end PdfToPngConverter

namespace PdfToPngConverter

/-- The sequential loop over a page list whose in-bounds pages all render at
positive viewports returns exactly the in-bounds pages' outputs, in order. -/
theorem seqLoop_ok (cwd : String) (doc : PdfDocument) (pdfFile : PdfInput)
    (props : Option PdfToPngOptions) :
    ∀ pages : List Int,
      (∀ p ∈ pages, (p ≤ (doc.numPages : Int) ∧ 1 ≤ p) →
        doc.renderFails p = false ∧
        0 < doc.pageWidth p * pageViewportScaleOf props ∧
        0 < doc.pageHeight p * pageViewportScaleOf props) →
      seqLoop cwd doc pdfFile props pages =
        .ok ((pages.filter (fun p => decide (p ≤ (doc.numPages : Int) ∧ 1 ≤ p))).map
          (seqPageOutput cwd doc pdfFile props)) := by
  intro pages
  induction pages with
  | nil => intro _; rfl
  | cons p rest ih =>
    intro h
    have hrest := ih (fun q hq hqin => h q (List.mem_cons_of_mem p hq) hqin)
    by_cases hc : (doc.numPages : Int) < p ∨ p < 1
    · have hfilter : decide (p ≤ (doc.numPages : Int) ∧ 1 ≤ p) = false := by
        rw [decide_eq_false_iff_not]
        omega
      simp only [seqLoop, if_pos hc, List.filter_cons, hfilter, if_false, Bool.false_eq_true]
      exact hrest
    · have hin : p ≤ (doc.numPages : Int) ∧ 1 ≤ p := by omega
      obtain ⟨hr, hw, hh⟩ := h p (List.mem_cons_self p rest) hin
      have hfilter : decide (p ≤ (doc.numPages : Int) ∧ 1 ≤ p) = true := by
        rw [decide_eq_true_eq]
        exact hin
      simp only [seqLoop, if_neg hc, List.filter_cons, hfilter, if_true]
      simp only [NodeCanvasFactory.create, hw, hh, and_self, if_true, gt_iff_lt]
      simp only [hr, Bool.false_eq_true, if_false]
      rw [hrest]
      rfl

/-- CLAIM C10: when `strictPagesToProcess` is truthy and the supplied
`pagesToProcess` contains an entry `< 1` or `> numPages`, `pdfToPng`
(`src/pdf.to.png.ts`) throws one of the two strict-validation errors and
returns no outputs; with the flag false or absent the same request instead
silently filters the invalid entries and succeeds. -/
theorem C10_strict_pages (cwd : String) (doc : PdfDocument) (pdfFile : PdfInput)
    (props : PdfToPngOptions) (pages : List Int)
    (hpg : props.pagesToProcess = some pages)
    (hbad : ∃ p ∈ pages, p < 1 ∨ (doc.numPages : Int) < p)
    (hgood : ∀ p ∈ pages, (p ≤ (doc.numPages : Int) ∧ 1 ≤ p) →
      doc.renderFails p = false ∧
      0 < doc.pageWidth p * pageViewportScaleOf (some props) ∧
      0 < doc.pageHeight p * pageViewportScaleOf (some props)) :
    (props.strictPagesToProcess = some true →
      pdfToPngSequential cwd doc pdfFile (some props) =
        .error "Invalid pages requested, page number must be >= 1" ∨
      pdfToPngSequential cwd doc pdfFile (some props) =
        .error "Invalid pages requested, page number must be <= total pages") ∧
    ((props.strictPagesToProcess).getD false = false →
      pdfToPngSequential cwd doc pdfFile (some props) =
        .ok ((pages.filter (fun p => decide (p ≤ (doc.numPages : Int) ∧ 1 ≤ p))).map
          (seqPageOutput cwd doc pdfFile (some props)))) := by
  have hreq : requestedPages doc (some props) = pages := by
    unfold requestedPages
    rw [show (some props).bind (·.pagesToProcess) = props.pagesToProcess from rfl, hpg]
    rfl
  constructor
  · intro hstrict
    have hs : ((some props).bind (·.strictPagesToProcess)).getD false = true := by
      rw [show (some props).bind (·.strictPagesToProcess) = props.strictPagesToProcess from rfl,
        hstrict]
      rfl
    by_cases h1 : pages.any (fun p => decide (p < 1))
    · left
      simp only [pdfToPngSequential, hreq, hs, h1, Bool.true_and, if_true]
    · right
      have h2 : pages.any (fun p => decide ((doc.numPages : Int) < p)) = true := by
        obtain ⟨p, hp, hcase⟩ := hbad
        rcases hcase with hlt | hgt
        · exact absurd (List.any_eq_true.mpr ⟨p, hp, by simpa using hlt⟩) h1
        · exact List.any_eq_true.mpr ⟨p, hp, by simpa using hgt⟩
      have h1' : pages.any (fun p => decide (p < 1)) = false := by
        rw [← Bool.not_eq_true]
        exact h1
      simp only [pdfToPngSequential, hreq, hs, h1', h2, Bool.true_and, Bool.and_false,
        if_false, if_true, Bool.false_eq_true]
  · intro hnostrict
    have hs : ((some props).bind (·.strictPagesToProcess)).getD false = false := by
      rw [show (some props).bind (·.strictPagesToProcess) = props.strictPagesToProcess from rfl]
      exact hnostrict
    simp only [pdfToPngSequential, hreq, hs, Bool.false_and, if_false, Bool.false_eq_true]
    exact seqLoop_ok cwd doc pdfFile (some props) pages hgood

/-- Strict options requesting the out-of-range page 0. -/
def propsStrict : PdfToPngOptions :=
  { pagesToProcess := some [0, 2], strictPagesToProcess := some true }

/-- Witness for C10: requesting pages `[0, 2]` of the 3-page document with
`strictPagesToProcess: true` raises a strict-validation error. -/
theorem C10_strict_pages_witness :
    pdfToPngSequential "/base" docThree .buffer (some propsStrict) =
      .error "Invalid pages requested, page number must be >= 1" ∨
    pdfToPngSequential "/base" docThree .buffer (some propsStrict) =
      .error "Invalid pages requested, page number must be <= total pages" :=
  (C10_strict_pages "/base" docThree .buffer propsStrict [0, 2] rfl
    (by decide) (by decide)).1 rfl

end PdfToPngConverter

namespace PdfToPngConverter

/-- Modelled from the spec: the effective concurrency limit,
`concurrencyLimit` defaulting to 4 and clamped to at least 1 (spec §5).  The
repository declares `processPagesInParallel` in its options type
(`src/unnamed/part_007`) and its test suite passes `concurrencyLimit: 2`
(`__tests__/pdf.to.png.parallel.no.content.test.ts`), but no batching
implementation is present under the sources. -/
def effectiveConcurrencyLimit (props : Option PdfToPngOptions) : Nat :=
  max 1 ((props.bind (·.concurrencyLimit)).getD 4)

/-- Split a list into consecutive chunks of `n` elements (the last chunk may
be shorter). -/
def chunksOf (n : Nat) (l : List α) : List (List α) :=
  match l with
  | [] => []
  | x :: xs => (x :: xs.take (n - 1)) :: chunksOf n (xs.drop (n - 1))
termination_by l.length
decreasing_by
  simp only [List.length_cons, List.length_drop]
  omega

/-- Modelled from the spec: the resource trace of one fully-awaited batch —
every render of the batch creates its surface before the batch's join
completes and destroys it by the end of the batch, so within the batch at
most `b.length` surfaces are simultaneously live (the trace takes the
maximal interleaving). -/
def batchTrace (b : List Int) : List ResourceEvent :=
  b.map ResourceEvent.surfaceCreate ++ b.map ResourceEvent.surfaceDestroy

/-- Modelled from the spec: batched-parallel rendering of the selected pages,
one fully-awaited fixed-size batch after another (spec §5). -/
def renderBatched (limit : Nat) (pages : List Int) : List ResourceEvent :=
  (chunksOf limit pages).flatMap batchTrace

/-- Running maximum of simultaneously live drawing surfaces along a trace:
`cur` is the current live count, `mx` the maximum so far. -/
def maxLiveAux : List ResourceEvent → Nat → Nat → Nat
  | [], _, mx => mx
  | .surfaceCreate _ :: rest, cur, mx => maxLiveAux rest (cur + 1) (max mx (cur + 1))
  | .surfaceDestroy _ :: rest, cur, mx => maxLiveAux rest (cur - 1) mx
  | _ :: rest, cur, mx => maxLiveAux rest cur mx

/-- The maximum number of simultaneously live drawing surfaces at any point
of a trace. -/
def maxLive (tr : List ResourceEvent) : Nat := maxLiveAux tr 0 0

/-- The number of live drawing surfaces after a trace. -/
def liveAfter : List ResourceEvent → Nat → Nat
  | [], cur => cur
  | .surfaceCreate _ :: rest, cur => liveAfter rest (cur + 1)
  | .surfaceDestroy _ :: rest, cur => liveAfter rest (cur - 1)
  | _ :: rest, cur => liveAfter rest cur

theorem maxLiveAux_append (t1 t2 : List ResourceEvent) :
    ∀ cur mx, maxLiveAux (t1 ++ t2) cur mx =
      maxLiveAux t2 (liveAfter t1 cur) (maxLiveAux t1 cur mx) := by
  induction t1 with
  | nil => intro cur mx; rfl
  | cons e rest ih => intro cur mx; cases e <;> simp [maxLiveAux, liveAfter, ih]

theorem liveAfter_append (t1 t2 : List ResourceEvent) :
    ∀ cur, liveAfter (t1 ++ t2) cur = liveAfter t2 (liveAfter t1 cur) := by
  induction t1 with
  | nil => intro cur; rfl
  | cons e rest ih => intro cur; cases e <;> simp [liveAfter, ih]

theorem liveAfter_creates (b : List Int) :
    ∀ cur, liveAfter (b.map ResourceEvent.surfaceCreate) cur = cur + b.length := by
  induction b with
  | nil => intro cur; rfl
  | cons p rest ih =>
    intro cur
    simp only [List.map_cons, liveAfter, ih, List.length_cons]
    omega

theorem liveAfter_destroys (b : List Int) :
    ∀ cur, liveAfter (b.map ResourceEvent.surfaceDestroy) cur = cur - b.length := by
  induction b with
  | nil => intro cur; rfl
  | cons p rest ih =>
    intro cur
    simp only [List.map_cons, liveAfter, ih, List.length_cons]
    omega

theorem maxLiveAux_creates (b : List Int) :
    ∀ cur mx, maxLiveAux (b.map ResourceEvent.surfaceCreate) cur mx =
      (if b = [] then mx else max mx (cur + b.length)) := by
  induction b with
  | nil => intro cur mx; rfl
  | cons p rest ih =>
    intro cur mx
    simp only [List.map_cons, maxLiveAux, ih]
    by_cases h : rest = []
    · subst h; simp
    · simp only [h, if_false, List.length_cons, List.cons_ne_nil]
      omega

theorem maxLiveAux_destroys (b : List Int) :
    ∀ cur mx, maxLiveAux (b.map ResourceEvent.surfaceDestroy) cur mx = mx := by
  induction b with
  | nil => intro cur mx; rfl
  | cons p rest ih =>
    intro cur mx
    simp only [List.map_cons, maxLiveAux, ih]

/-- A fully-awaited batch raises the running maximum by at most its size and
returns the live count to zero. -/
theorem maxLiveAux_batch (b : List Int) (mx : Nat) :
    maxLiveAux (batchTrace b) 0 mx = max mx b.length ∧
    liveAfter (batchTrace b) 0 = 0 := by
  unfold batchTrace
  constructor
  · rw [maxLiveAux_append, maxLiveAux_destroys, maxLiveAux_creates]
    by_cases h : b = []
    · subst h; simp
    · simp [h]
  · rw [liveAfter_append, liveAfter_creates, liveAfter_destroys]
    omega

/-- Across a sequence of fully-awaited batches of size at most `n`, at most
`max mx n` surfaces are ever simultaneously live. -/
theorem maxLiveAux_batches_le (n : Nat) :
    ∀ (chunks : List (List Int)) (mx : Nat), (∀ c ∈ chunks, c.length ≤ n) →
      maxLiveAux (chunks.flatMap batchTrace) 0 mx ≤ max mx n := by
  intro chunks
  induction chunks with
  | nil =>
    intro mx _
    simp [maxLiveAux]
  | cons c rest ih =>
    intro mx h
    rw [List.flatMap_cons, maxLiveAux_append, (maxLiveAux_batch c mx).1,
      (maxLiveAux_batch c mx).2]
    have hc := h c (List.mem_cons_self c rest)
    have := ih (max mx c.length) (fun d hd => h d (List.mem_cons_of_mem c hd))
    omega

theorem chunksOf_eq_nil_iff (n : Nat) (l : List α) : chunksOf n l = [] ↔ l = [] := by
  match l with
  | [] => simp [chunksOf]
  | x :: xs => rw [chunksOf]; simp

/-- Splitting into chunks loses and reorders nothing. -/
theorem chunksOf_flatten (n : Nat) (l : List α) : (chunksOf n l).flatten = l := by
  have aux : ∀ (k : Nat) (m : List α), m.length ≤ k → (chunksOf n m).flatten = m := by
    intro k
    induction k with
    | zero =>
      intro m hm
      have : m = [] := List.eq_nil_of_length_eq_zero (Nat.le_zero.mp hm)
      subst this
      simp [chunksOf]
    | succ k ih =>
      intro m hm
      match m with
      | [] => simp [chunksOf]
      | x :: xs =>
        rw [chunksOf, List.flatten_cons,
          ih (xs.drop (n - 1))
            (by simp only [List.length_drop]; simp only [List.length_cons] at hm; omega),
          List.cons_append, List.take_append_drop]
  exact aux l.length l le_rfl

/-- Every chunk is nonempty and no longer than `n`; every non-final chunk has
exactly `n` elements. -/
theorem chunksOf_sizes (n : Nat) (hn : 1 ≤ n) :
    ∀ (k : Nat) (l : List α), l.length ≤ k →
      ∀ pre c post, chunksOf n l = pre ++ c :: post →
        c ≠ [] ∧ c.length ≤ n ∧ (post ≠ [] → c.length = n) := by
  intro k
  induction k with
  | zero =>
    intro l hl pre c post h
    have : l = [] := List.eq_nil_of_length_eq_zero (Nat.le_zero.mp hl)
    subst this
    simp [chunksOf] at h
  | succ k ih =>
    intro l hl pre c post h
    match l with
    | [] => simp [chunksOf] at h
    | x :: xs =>
      rw [chunksOf] at h
      match pre with
      | [] =>
        rw [List.nil_append, List.cons.injEq] at h
        obtain ⟨rfl, hpost⟩ := h
        refine ⟨List.cons_ne_nil x _, ?_, ?_⟩
        · simp only [List.length_cons, List.length_take]
          omega
        · intro hp
          have hxs : xs.drop (n - 1) ≠ [] := by
            intro hnil
            apply hp
            rw [← hpost, hnil]
            simp [chunksOf]
          have hlen : n - 1 < xs.length := by
            by_contra hcon
            exact hxs (List.drop_eq_nil_of_le (by omega))
          simp only [List.length_cons, List.length_take]
          omega
      | c₀ :: pre' =>
        rw [List.cons_append, List.cons.injEq] at h
        exact ih (xs.drop (n - 1))
          (by simp only [List.length_drop]; simp only [List.length_cons] at hl; omega)
          pre' c post h.2

end PdfToPngConverter

namespace PdfToPngConverter

/-- CLAIM C2: with `processPagesInParallel = true`, pages are grouped into
fixed-size batches of the effective concurrency limit (default 4, clamped to
at least 1): the batches partition the page list in order, every batch has at
most `limit` pages, every non-final batch exactly `limit`, and — each batch
being fully awaited before the next starts — at most `limit` drawing surfaces
are simultaneously live at any point of the execution. -/
theorem C2_parallel_batching (props : PdfToPngOptions) (pages : List Int)
    (_hpar : props.processPagesInParallel = some true) :
    1 ≤ effectiveConcurrencyLimit (some props) ∧
    (props.concurrencyLimit = none → effectiveConcurrencyLimit (some props) = 4) ∧
    (chunksOf (effectiveConcurrencyLimit (some props)) pages).flatten = pages ∧
    (∀ c ∈ chunksOf (effectiveConcurrencyLimit (some props)) pages,
      c ≠ [] ∧ c.length ≤ effectiveConcurrencyLimit (some props)) ∧
    (∀ pre c post,
      chunksOf (effectiveConcurrencyLimit (some props)) pages = pre ++ c :: post →
      post ≠ [] → c.length = effectiveConcurrencyLimit (some props)) ∧
    maxLive (renderBatched (effectiveConcurrencyLimit (some props)) pages) ≤
      effectiveConcurrencyLimit (some props) := by
  have hlim : 1 ≤ effectiveConcurrencyLimit (some props) := Nat.le_max_left 1 _
  refine ⟨hlim, ?_, chunksOf_flatten _ pages, ?_, ?_, ?_⟩
  · intro hnone
    unfold effectiveConcurrencyLimit
    rw [show (some props).bind (·.concurrencyLimit) = props.concurrencyLimit from rfl, hnone]
    rfl
  · intro c hc
    obtain ⟨pre, post, hsplit⟩ := List.append_of_mem hc
    have := chunksOf_sizes (effectiveConcurrencyLimit (some props)) hlim
      pages.length pages le_rfl pre c post hsplit
    exact ⟨this.1, this.2.1⟩
  · intro pre c post hsplit hpost
    exact (chunksOf_sizes (effectiveConcurrencyLimit (some props)) hlim
      pages.length pages le_rfl pre c post hsplit).2.2 hpost
  · have hbound := maxLiveAux_batches_le (effectiveConcurrencyLimit (some props))
      (chunksOf (effectiveConcurrencyLimit (some props)) pages) 0
      (fun c hc => by
        obtain ⟨pre, post, hsplit⟩ := List.append_of_mem hc
        exact (chunksOf_sizes (effectiveConcurrencyLimit (some props)) hlim
          pages.length pages le_rfl pre c post hsplit).2.1)
    unfold maxLive renderBatched
    omega

/-- Parallel options with `concurrencyLimit: 2` as in the repository's test. -/
def propsParallel : PdfToPngOptions :=
  { processPagesInParallel := some true, concurrencyLimit := some 2 }

/-- Witness for C2: pages `[1,2,3,4,5]` with `concurrencyLimit: 2` are
batched losslessly and never keep more than 2 surfaces live. -/
theorem C2_parallel_batching_witness :
    (chunksOf (effectiveConcurrencyLimit (some propsParallel))
        ([1, 2, 3, 4, 5] : List Int)).flatten = [1, 2, 3, 4, 5] ∧
      maxLive (renderBatched (effectiveConcurrencyLimit (some propsParallel)) [1, 2, 3, 4, 5])
        ≤ effectiveConcurrencyLimit (some propsParallel) := by
  have h := C2_parallel_batching propsParallel [1, 2, 3, 4, 5] rfl
  exact ⟨h.2.2.1, h.2.2.2.2.2⟩

theorem flatMap_map_eq_map_flatten {α β : Type} (L : List (List α)) (f : α → β) :
    L.flatMap (fun b => b.map f) = L.flatten.map f := by
  induction L with
  | nil => rfl
  | cons a L ih => simp only [List.flatMap_cons, List.flatten_cons, List.map_append, ih]

/-- CLAIM C5: rendering the selected pages in concurrency-limited batches
(each batch an order-preserving `Promise.all` join, batches concatenated in
order) produces exactly the same `PngPageOutput` list, in the same order, as
rendering them one at a time — for every document, input and options. -/
theorem C5_parallel_equals_sequential (doc : PdfDocument) (pdfFile : PdfInput)
    (props : Option PdfToPngOptions) :
    (chunksOf (effectiveConcurrencyLimit props) (validPagesToProcess doc props)).flatMap
      (fun b => b.map (renderedPageOutput doc pdfFile props)) =
    (validPagesToProcess doc props).map (renderedPageOutput doc pdfFile props) := by
  rw [flatMap_map_eq_map_flatten, chunksOf_flatten]

end PdfToPngConverter

namespace PdfToPngConverter

/-- Segment decomposition of a path (split on `'/'`). -/
def pathSegmentsChars (p : List Char) : List (List Char) := splitSlash p

/-- Predicate: `p` is `base` itself, or a proper descendant of `base`: `base`'s segment
list is a proper prefix of `p`'s (segment-wise containment, as required to
avoid `/base-evil` matching `/base`). -/
def isWithinChars (base p : List Char) : Prop :=
  p = base ∨ (pathSegmentsChars base <+: pathSegmentsChars p ∧ p ≠ base)

/-- The containment predicate on `String` paths. -/
def isWithin (base p : String) : Prop := isWithinChars base.data p.data

instance (base p : List Char) : Decidable (isWithinChars base p) := by
  unfold isWithinChars
  infer_instance

instance (base p : String) : Decidable (isWithin base p) := by
  unfold isWithin
  infer_instance

/-- Options whose mask function names every page `'../evil.png'`. -/
def propsEvilName : PdfToPngOptions :=
  { outputFolder := some "out", outputFileMaskFunc := some (fun _ => "../evil.png") }

/-- CLAIM C6 (counterexample): in the join-based `pdfToPng` variant
(`src/pdfToPng.ts` lines 53–99, persistence at lines 83–96), a page name with
a `'..'` segment that resolves outside the output folder raises no error at
all: the call succeeds and the file is written at `/base/evil.png`, which is
not the output folder `/base/out` or a descendant of it — `join` performs no
containment check. -/
theorem C6_join_variant_traversal_counterexample :
    (pdfToPng "/base" docOne .buffer (some propsEvilName)).fst =
      .ok [{ pageNumber := 1, name := "../evil.png", content := some ⟨1, 5, 7⟩,
             path := "/base/evil.png", width := 5, height := 7 }] ∧
    writeEventPaths (pdfToPng "/base" docOne .buffer (some propsEvilName)).snd =
      ["/base/evil.png"] ∧
    joinPath "/base" "out" = "/base/out" ∧
    ¬ isWithin "/base/out" "/base/evil.png" := by
  decide

end PdfToPngConverter

namespace PdfToPngConverter

/-! ## Lemmas about the POSIX path model -/

theorem splitSlash_ne_nil (l : List Char) : splitSlash l ≠ [] := by
  match l with
  | [] => simp [splitSlash]
  | c :: rest =>
    rcases h : splitSlash rest with _ | ⟨hd, tl⟩
    · exact absurd h (splitSlash_ne_nil rest)
    · by_cases hc : c = '/' <;> simp [splitSlash, h, hc]

theorem splitSlash_append (a b : List Char) :
    splitSlash (a ++ '/' :: b) = splitSlash a ++ splitSlash b := by
  induction a with
  | nil =>
    rcases h : splitSlash b with _ | ⟨hd, tl⟩
    · exact absurd h (splitSlash_ne_nil b)
    · simp [splitSlash, h]
  | cons c a ih =>
    rcases ha : splitSlash a with _ | ⟨hd, tl⟩
    · exact absurd ha (splitSlash_ne_nil a)
    · rw [List.cons_append]
      by_cases hc : c = '/' <;> simp [splitSlash, ih, ha, hc]

theorem mem_splitSlash_no_slash (l : List Char) : ∀ s ∈ splitSlash l, '/' ∉ s := by
  induction l with
  | nil =>
    intro s hs
    simp [splitSlash] at hs
    subst hs
    simp
  | cons c rest ih =>
    intro s hs
    rcases h : splitSlash rest with _ | ⟨hd, tl⟩
    · exact absurd h (splitSlash_ne_nil rest)
    · rw [h] at ih
      by_cases hc : c = '/'
      · simp [splitSlash, h, hc] at hs
        rcases hs with rfl | hs
        · simp
        · exact ih s (by simp [hs])
      · simp [splitSlash, h, hc] at hs
        rcases hs with rfl | hs
        · intro hmem
          rcases List.mem_cons.mp hmem with h1 | h1
          · exact hc h1.symm
          · exact ih hd (List.mem_cons_self hd tl) h1
        · exact ih s (List.mem_cons_of_mem hd hs)

theorem splitSlash_no_slash_id (x : List Char) (h : '/' ∉ x) : splitSlash x = [x] := by
  induction x with
  | nil => rfl
  | cons c rest ih =>
    have hc : c ≠ '/' := fun hcc => h (hcc ▸ List.mem_cons_self c rest)
    have hrest : '/' ∉ rest := fun hr => h (List.mem_cons_of_mem c hr)
    simp [splitSlash, ih hrest, hc]

end PdfToPngConverter

namespace PdfToPngConverter

theorem splitSlash_joinSegs (xs : List (List Char)) (hne : xs ≠ [])
    (h : ∀ s ∈ xs, '/' ∉ s) : splitSlash (joinSegs xs) = xs := by
  induction xs with
  | nil => exact absurd rfl hne
  | cons x t ih =>
    rcases t with _ | ⟨y, t'⟩
    · exact splitSlash_no_slash_id x (h x (List.mem_cons_self x []))
    · rw [show joinSegs (x :: y :: t') = x ++ '/' :: joinSegs (y :: t') from rfl,
        splitSlash_append, splitSlash_no_slash_id x (h x (List.mem_cons_self x (y :: t'))),
        ih (List.cons_ne_nil y t') (fun s hs => h s (List.mem_cons_of_mem x hs))]
      rfl

theorem joinSegs_ne_nil (xs : List (List Char)) (hne : xs ≠ [])
    (h : ∀ s ∈ xs, s ≠ []) : joinSegs xs ≠ [] := by
  rcases xs with _ | ⟨x, t⟩
  · exact absurd rfl hne
  · rcases t with _ | ⟨y, t'⟩
    · exact h x (List.mem_cons_self x [])
    · rw [show joinSegs (x :: y :: t') = x ++ '/' :: joinSegs (y :: t') from rfl]
      simp [List.append_eq_nil]

/-- Well-formed segment lists: what `posix.resolve` produces for an absolute
path — nonempty slash-free segments, none `'.'` or `'..'`. -/
def wfSegs (segs : List (List Char)) : Prop :=
  ∀ s ∈ segs, s ≠ [] ∧ '/' ∉ s ∧ s ≠ ['.'] ∧ s ≠ ['.', '.']

theorem normStep_false_mem (acc : List (List Char)) (s t : List Char)
    (ht : t ∈ normStep false acc s) :
    t ∈ acc ∨ (t = s ∧ s ≠ [] ∧ s ≠ ['.'] ∧ s ≠ ['.', '.']) := by
  unfold normStep at ht
  by_cases h1 : s = [] ∨ s = ['.']
  · rw [if_pos h1] at ht
    exact Or.inl ht
  · rw [if_neg h1] at ht
    push_neg at h1
    by_cases h2 : s = ['.', '.']
    · rw [if_pos h2] at ht
      rcases hlast : acc.getLast? with _ | last
      · rw [hlast] at ht
        dsimp only at ht
        simp at ht
      · rw [hlast] at ht
        dsimp only at ht
        by_cases h3 : last = ['.', '.']
        · rw [if_pos h3] at ht
          simp at ht
          exact Or.inl ht
        · rw [if_neg h3] at ht
          exact Or.inl ((List.dropLast_sublist acc).subset ht)
    · rw [if_neg h2] at ht
      rcases List.mem_append.mp ht with h | h
      · exact Or.inl h
      · exact Or.inr ⟨List.mem_singleton.mp h, h1.1, h1.2, h2⟩

theorem normSegs_false_mem (segs : List (List Char)) :
    ∀ t ∈ normSegs false segs, t ∈ segs ∧ t ≠ [] ∧ t ≠ ['.'] ∧ t ≠ ['.', '.'] := by
  suffices h : ∀ (ss acc : List (List Char)), ∀ t ∈ List.foldl (normStep false) acc ss,
      t ∈ acc ∨ (t ∈ ss ∧ t ≠ [] ∧ t ≠ ['.'] ∧ t ≠ ['.', '.']) by
    intro t ht
    rcases h segs [] t ht with h0 | h0
    · simp at h0
    · exact h0
  intro ss
  induction ss with
  | nil =>
    intro acc t ht
    exact Or.inl ht
  | cons s rest ih =>
    intro acc t ht
    rw [List.foldl_cons] at ht
    rcases ih (normStep false acc s) t ht with h0 | h0
    · rcases normStep_false_mem acc s t h0 with h1 | h1
      · exact Or.inl h1
      · obtain ⟨rfl, hs1, hs2, hs3⟩ := h1
        exact Or.inr ⟨List.mem_cons_self t rest, hs1, hs2, hs3⟩
    · exact Or.inr ⟨List.mem_cons_of_mem s h0.1, h0.2.1, h0.2.2.1, h0.2.2.2⟩

/-- The segments `posix.resolve` produces for an absolute result are
well-formed. -/
theorem wf_resolveSegs (joined : List Char) :
    wfSegs (normSegs false (splitSlash joined)) := by
  intro s hs
  have h := normSegs_false_mem (splitSlash joined) s hs
  exact ⟨h.2.1, mem_splitSlash_no_slash joined s h.1, h.2.2.1, h.2.2.2⟩

theorem foldl_normStep_wf (bs : List (List Char)) :
    ∀ acc, wfSegs bs → List.foldl (normStep false) acc bs = acc ++ bs := by
  induction bs with
  | nil =>
    intro acc _
    simp
  | cons s t ih =>
    intro acc hwf
    have hs := hwf s (List.mem_cons_self s t)
    have hstep : normStep false acc s = acc ++ [s] := by
      unfold normStep
      rw [if_neg (by push_neg; exact ⟨hs.1, hs.2.2.1⟩), if_neg hs.2.2.2]
    rw [List.foldl_cons, hstep,
      ih (acc ++ [s]) (fun q hq => hwf q (List.mem_cons_of_mem s hq)), List.append_assoc]
    rfl

theorem isAbsolutePath_append (a b : List Char) (h : isAbsolutePath a = true) :
    isAbsolutePath (a ++ b) = true := by
  rcases a with _ | ⟨c, t⟩
  · simp [isAbsolutePath] at h
  · exact h

theorem resolveJoined_abs (cwd a b : List Char)
    (h : isAbsolutePath cwd = true ∨ isAbsolutePath a = true) :
    isAbsolutePath (resolveJoined cwd a b) = true := by
  unfold resolveJoined
  by_cases h1 : isAbsolutePath b = true
  · rw [if_pos h1]
    exact h1
  · rw [if_neg h1]
    by_cases h2 : isAbsolutePath a = true
    · rw [if_pos h2]
      exact isAbsolutePath_append a _ h2
    · rw [if_neg h2]
      rcases h with h | h
      · exact isAbsolutePath_append _ _ (isAbsolutePath_append cwd _ h)
      · exact absurd h h2

theorem posixResolveChars_eq_cons (cwd pfrom pto : List Char)
    (h : isAbsolutePath (resolveJoined cwd pfrom pto) = true) :
    posixResolveChars cwd pfrom pto =
      '/' :: joinSegs (normSegs false (splitSlash (resolveJoined cwd pfrom pto))) := by
  simp only [posixResolveChars, h, Bool.not_true, if_true]
  by_cases hb : joinSegs (normSegs false (splitSlash (resolveJoined cwd pfrom pto))) = []
  · rw [if_pos hb, hb]
  · rw [if_neg hb]

end PdfToPngConverter

namespace PdfToPngConverter

theorem getLast?_cons_of_ne_nil {α : Type} (a : α) (l : List α) (h : l ≠ []) :
    (a :: l).getLast? = l.getLast? := by
  rcases l with _ | ⟨b, t⟩
  · exact absurd rfl h
  · exact List.getLast?_cons_cons

/-- A normalized absolute path made of well-formed segments has no trailing
separator. -/
theorem getLast?_joinSegs_ne_slash :
    ∀ (bs : List (List Char)), wfSegs bs → bs ≠ [] →
      ¬ ('/' :: joinSegs bs).getLast? = some '/' := by
  intro bs
  induction bs with
  | nil =>
    intro _ hne
    exact absurd rfl hne
  | cons x t ih =>
    intro hwf _
    rcases t with _ | ⟨y, t'⟩
    · have hx := hwf x (List.mem_cons_self x [])
      rw [show joinSegs [x] = x from rfl, getLast?_cons_of_ne_nil '/' x hx.1]
      intro hcon
      obtain ⟨hh, heq⟩ := List.mem_getLast?_eq_getLast hcon
      exact hx.2.1 (heq ▸ List.getLast_mem hh)
    · intro hcon
      apply ih (fun s hs => hwf s (List.mem_cons_of_mem x hs)) (List.cons_ne_nil y t')
      rw [show joinSegs (x :: y :: t') = x ++ '/' :: joinSegs (y :: t') from rfl] at hcon
      rw [show ('/' :: (x ++ '/' :: joinSegs (y :: t'))) =
        ('/' :: x) ++ ('/' :: joinSegs (y :: t')) from by simp] at hcon
      rw [List.getLast?_append_of_ne_nil _ (List.cons_ne_nil _ _)] at hcon
      exact hcon

/-- The modelled `posix.normalize` is the identity on a normalized absolute path. -/
theorem posixNormalizeChars_id (bs : List (List Char)) (hbs : wfSegs bs) (hne : bs ≠ []) :
    posixNormalizeChars ('/' :: joinSegs bs) = '/' :: joinSegs bs := by
  have habs : isAbsolutePath ('/' :: joinSegs bs) = true := by simp [isAbsolutePath]
  have htrail : ¬ (('/' :: joinSegs bs).getLast? = some '/') :=
    getLast?_joinSegs_ne_slash bs hbs hne
  have hsplit : splitSlash ('/' :: joinSegs bs) = [] :: bs := by
    rw [show ('/' :: joinSegs bs) = [] ++ '/' :: joinSegs bs from rfl, splitSlash_append,
      splitSlash_joinSegs bs hne (fun s hs => (hbs s hs).2.1)]
    rfl
  have hns : normSegs false ([] :: bs) = bs := by
    unfold normSegs
    rw [List.foldl_cons, show normStep false [] [] = [] from rfl, foldl_normStep_wf bs [] hbs]
    rfl
  have hjoin : joinSegs bs ≠ [] := joinSegs_ne_nil bs hne (fun s hs => (hbs s hs).1)
  unfold posixNormalizeChars
  rw [if_neg (List.cons_ne_nil '/' (joinSegs bs))]
  dsimp only
  simp only [habs, Bool.not_true, hsplit, hns]
  rw [if_neg hjoin, if_pos trivial, if_neg htrail, List.append_nil]

/-- If the rendered path of well-formed segments `ps` starts with the
rendered path of well-formed segments `bs` followed by a separator, then
`bs` is a proper prefix of `ps`. -/
theorem within_of_startsWith (bs ps : List (List Char)) (hbs : wfSegs bs) (hps : wfSegs ps)
    (hbne : bs ≠ []) (hpne : ps ≠ [])
    (h : jsStartsWith ('/' :: joinSegs ps) (('/' :: joinSegs bs) ++ ['/']) = true) :
    bs <+: ps ∧ bs ≠ ps := by
  unfold jsStartsWith at h
  rw [ List.isPrefixOf_iff_prefix] at h
  obtain ⟨r, hr⟩ := h
  have hjoin : joinSegs ps = joinSegs bs ++ '/' :: r := by
    have h0 : '/' :: (joinSegs bs ++ '/' :: r) = '/' :: joinSegs ps := by
      simpa [List.append_assoc] using hr
    injection h0 with _ h1
    exact h1.symm
  have hsplit : ps = bs ++ splitSlash r := by
    have h1 := splitSlash_joinSegs ps hpne (fun s hs => (hps s hs).2.1)
    have h2 : splitSlash (joinSegs bs ++ '/' :: r) = bs ++ splitSlash r := by
      rw [splitSlash_append, splitSlash_joinSegs bs hbne (fun s hs => (hbs s hs).2.1)]
    rw [← h1, hjoin, h2]
  constructor
  · exact ⟨splitSlash r, hsplit.symm⟩
  · intro heq
    rw [heq] at hsplit
    have hlen := congrArg List.length hsplit
    simp at hlen
    exact splitSlash_ne_nil r hlen

end PdfToPngConverter

namespace PdfToPngConverter

/-- The path that `sanitizePath` resolves its target to (the code's
`resolvedPath`). -/
def resolvedTarget (cwd basePath targetPath : List Char) : List Char :=
  posixResolveChars cwd (posixNormalizeChars basePath)
    (posixNormalizeChars (replaceBackslashes targetPath))

theorem sanitizePath_ok_val (cwd basePath targetPath p : List Char)
    (h : sanitizePath cwd basePath targetPath = .ok p) :
    p = resolvedTarget cwd basePath targetPath ∧
    (jsStartsWith p (posixNormalizeChars basePath ++ ['/']) = true ∨
      p = posixNormalizeChars basePath) := by
  unfold sanitizePath at h
  dsimp only at h
  split at h
  · cases h
  · rename_i hcond
    rw [Except.ok.injEq] at h
    subst h
    refine ⟨rfl, ?_⟩
    by_cases hstart : jsStartsWith (resolvedTarget cwd basePath targetPath)
        (posixNormalizeChars basePath ++ ['/']) = true
    · exact Or.inl hstart
    · right
      by_contra hne
      exact hcond ⟨hstart, hne⟩

theorem sanitizePath_error_val (cwd basePath targetPath : List Char) (e : String)
    (h : sanitizePath cwd basePath targetPath = .error e) :
    e = "Invalid path: Path traversal detected." := by
  unfold sanitizePath at h
  dsimp only at h
  split at h
  · rw [Except.error.injEq] at h
    exact h.symm
  · cases h

theorem posixResolve_shape (cwd a b : List Char)
    (hj : isAbsolutePath (resolveJoined cwd a b) = true) :
    ∃ segs, wfSegs segs ∧ posixResolveChars cwd a b = '/' :: joinSegs segs :=
  ⟨normSegs false (splitSlash (resolveJoined cwd a b)), wf_resolveSegs _,
    posixResolveChars_eq_cons cwd a b hj⟩

theorem splitSlash_cons_slash_joinSegs (bs : List (List Char)) (hne : bs ≠ [])
    (h : ∀ s ∈ bs, '/' ∉ s) : splitSlash ('/' :: joinSegs bs) = [] :: bs := by
  rw [show ('/' :: joinSegs bs) = [] ++ '/' :: joinSegs bs from rfl, splitSlash_append,
    splitSlash_joinSegs bs hne h]
  rfl

/-- Core containment property of `sanitizePath`: when the base path is a
normalized absolute path, a successfully sanitized target is the base itself
or a proper segment-wise descendant of it. -/
theorem sanitizePath_ok_within (cwd basePath : List Char) (bs : List (List Char))
    (hbase : basePath = '/' :: joinSegs bs) (hbs : wfSegs bs)
    (targetPath p : List Char)
    (h : sanitizePath cwd basePath targetPath = .ok p) :
    isWithinChars basePath p := by
  obtain ⟨hval, hcase⟩ := sanitizePath_ok_val cwd basePath targetPath p h
  by_cases hne : bs = []
  · subst hne
    have hbase' : basePath = ['/'] := hbase
    have hnb : posixNormalizeChars basePath = basePath := by rw [hbase']; decide
    rcases hcase with hstart | heq
    · exfalso
      have habs : isAbsolutePath (resolveJoined cwd (posixNormalizeChars basePath)
          (posixNormalizeChars (replaceBackslashes targetPath))) = true := by
        apply resolveJoined_abs
        right
        rw [hnb, hbase']
        decide
      obtain ⟨ps, hps, hshape⟩ := posixResolve_shape cwd _ _ habs
      have hp : p = '/' :: joinSegs ps := hval.trans hshape
      rw [hnb, hbase', hp] at hstart
      unfold jsStartsWith at hstart
      rw [ List.isPrefixOf_iff_prefix] at hstart
      obtain ⟨r, hr⟩ := hstart
      have hjoin : joinSegs ps = '/' :: r := by
        have h0 : '/' :: ('/' :: r) = '/' :: joinSegs ps := by simpa using hr
        injection h0 with _ h1
        exact h1.symm
      have hpsne : ps ≠ [] := by
        intro h0
        subst h0
        exact absurd hjoin (by simp [joinSegs])
      have hround := splitSlash_joinSegs ps hpsne (fun s hs => (hps s hs).2.1)
      rw [hjoin] at hround
      have hmem : ([] : List Char) ∈ ps := by
        rw [← hround, show ('/' :: r : List Char) = [] ++ '/' :: r from rfl, splitSlash_append]
        exact List.mem_append_left _ (by simp [splitSlash])
      exact (hps [] hmem).1 rfl
    · exact Or.inl (heq.trans hnb)
  · have hnb : posixNormalizeChars basePath = basePath := by
      rw [hbase]
      exact posixNormalizeChars_id bs hbs hne
    rcases hcase with hstart | heq
    · have habs : isAbsolutePath (resolveJoined cwd (posixNormalizeChars basePath)
          (posixNormalizeChars (replaceBackslashes targetPath))) = true := by
        apply resolveJoined_abs
        right
        rw [hnb, hbase]
        simp [isAbsolutePath]
      obtain ⟨ps, hps, hshape⟩ := posixResolve_shape cwd _ _ habs
      have hp : p = '/' :: joinSegs ps := hval.trans hshape
      have hpsne : ps ≠ [] := by
        intro h0
        subst h0
        rw [hnb, hbase, hp] at hstart
        unfold jsStartsWith at hstart
        rw [ List.isPrefixOf_iff_prefix] at hstart
        have hlen := hstart.length_le
        simp [joinSegs] at hlen
      rw [hnb, hbase, hp] at hstart
      have hw := within_of_startsWith bs ps hbs hps hne hpsne hstart
      right
      constructor
      · unfold pathSegmentsChars
        rw [hbase, hp,
          splitSlash_cons_slash_joinSegs bs hne (fun s hs => (hbs s hs).2.1),
          splitSlash_cons_slash_joinSegs ps hpsne (fun s hs => (hps s hs).2.1)]
        exact List.cons_prefix_cons.mpr ⟨rfl, hw.1⟩
      · intro h0
        rw [hp, hbase] at h0
        injection h0 with _ h1
        apply hw.2
        have e1 := splitSlash_joinSegs bs hne (fun s hs => (hbs s hs).2.1)
        have e2 := splitSlash_joinSegs ps hpsne (fun s hs => (hps s hs).2.1)
        rw [← e1, ← e2, h1]
    · exact Or.inl (heq.trans hnb)

/-- A successfully sanitized path is a normalized absolute path of
well-formed segments (the shape `posix.resolve` produces). -/
theorem sanitizePath_ok_shape (cwd basePath targetPath p : List Char)
    (hcwd : isAbsolutePath cwd = true)
    (h : sanitizePath cwd basePath targetPath = .ok p) :
    ∃ ps, wfSegs ps ∧ p = '/' :: joinSegs ps := by
  obtain ⟨hval, -⟩ := sanitizePath_ok_val cwd basePath targetPath p h
  have habs := resolveJoined_abs cwd (posixNormalizeChars basePath)
    (posixNormalizeChars (replaceBackslashes targetPath)) (Or.inl hcwd)
  obtain ⟨ps, hps, hshape⟩ := posixResolve_shape cwd _ _ habs
  exact ⟨ps, hps, hval.trans hshape⟩

/-- The save step of the `sanitizePath`-based `pdfToPng` variant
(`src/pdfToPng.ts` lines 287–298): the output folder is itself sanitized
against `process.cwd()`, each page name is sanitized against that folder, and
each successfully sanitized path is written (`Promise.all`: one rejected
sanitization rejects the call but does not cancel sibling writes).  Returns
the call's result together with the list of paths actually written. -/
def savePngFiles (cwd : List Char) (outputFolder : String) (names : List String) :
    Except String (List (List Char)) × List (List Char) :=
  match sanitizePath cwd cwd outputFolder.data with
  | .error e => (.error e, [])
  | .ok sanitizedOutputFolder =>
    let results := names.map (fun n => sanitizePath cwd sanitizedOutputFolder n.data)
    (promiseAll results, results.filterMap (fun r => r.toOption))

/-- CLAIM C6 (amended, proved on the `sanitizePath`-based variant at
`src/pdfToPng.ts` lines 259–378): with an absolute `process.cwd()`, once the
output folder has been resolved by `sanitizePath(cwd, outputFolder)`, every
page name that sanitizes successfully yields a path that is the output folder
itself or a proper segment-wise descendant of it; a name whose resolution
escapes the folder makes the call fail with
`'Invalid path: Path traversal detected.'`; and every path actually written
by the save step lies within the folder. -/
theorem C6_sanitizePath_traversal_containment (cwd : List Char)
    (hcwd : isAbsolutePath cwd = true)
    (outputFolder : String) (names : List String) (folder : List Char)
    (hfolder : sanitizePath cwd cwd outputFolder.data = .ok folder) :
    (∀ (name : String) (p : List Char),
      sanitizePath cwd folder name.data = .ok p → isWithinChars folder p) ∧
    (∀ name : String, ¬ isWithinChars folder (resolvedTarget cwd folder name.data) →
      sanitizePath cwd folder name.data = .error "Invalid path: Path traversal detected.") ∧
    (∀ p ∈ (savePngFiles cwd outputFolder names).2, isWithinChars folder p) := by
  obtain ⟨fs, hfs, hfshape⟩ := sanitizePath_ok_shape cwd cwd outputFolder.data folder hcwd hfolder
  have hwithin : ∀ (name : String) (p : List Char),
      sanitizePath cwd folder name.data = .ok p → isWithinChars folder p :=
    fun name p hp => sanitizePath_ok_within cwd folder fs hfshape hfs name.data p hp
  refine ⟨hwithin, ?_, ?_⟩
  · intro name hnot
    rcases hres : sanitizePath cwd folder name.data with e | p
    · rw [sanitizePath_error_val cwd folder name.data e hres]
    · exfalso
      obtain ⟨hval, -⟩ := sanitizePath_ok_val cwd folder name.data p hres
      exact hnot (hval ▸ hwithin name p hres)
  · intro p hp
    unfold savePngFiles at hp
    rw [hfolder] at hp
    dsimp only at hp
    rw [List.mem_filterMap] at hp
    obtain ⟨r, hr, hrp⟩ := hp
    rw [List.mem_map] at hr
    obtain ⟨n, -, rfl⟩ := hr
    rcases hres : sanitizePath cwd folder n.data with e | q
    · rw [hres] at hrp
      cases hrp
    · rw [hres] at hrp
      simp only [Except.toOption, Option.some.injEq] at hrp
      subst hrp
      exact hwithin n q hres

/-- Witness for the amended C6: with `process.cwd() = "/base"` and output
folder `"out"` (resolved to `/base/out`), the page name `"../etc/passwd"`
resolves outside the folder and is rejected with the traversal error. -/
theorem C6_sanitizePath_traversal_containment_witness :
    sanitizePath "/base".data "/base/out".data "../etc/passwd".data =
      .error "Invalid path: Path traversal detected." := by
  have h := C6_sanitizePath_traversal_containment "/base".data (by decide) "out" []
    "/base/out".data (by decide)
  exact h.2.1 "../etc/passwd" (by decide)

end PdfToPngConverter
